import Mathlib

/-!
Verification of the Kimera-VIO mesher core (src/mesh/Mesher.cpp) and the
triangle rasterizer of src/UtilsOpenCV.cpp against its natural-language
specification.

Modelling conventions:
* C++ `double`/`float` scalars are idealized as elements of a linear ordered
  field `K` (instantiated at `ℚ` for concrete evaluation and at `ℝ` where the
  claim needs genuine square roots or `atan2`).  All branching in the source
  is on exact comparisons of such scalars, which the embedding mirrors.
* `cv::norm` (a Euclidean norm, hence a square root) and the external helper
  `UtilsGeometry::getRatioBetweenTangentialAndRadialDisplacement` (declared
  out of scope by the spec, section 4.9) enter the mesher only as opaque
  nonneg scalar producers; they are passed as explicit function parameters
  `nrm` / `elong`, so every theorem quantifies over them.  The left-camera
  pose influences the code only through `elong`, so it is folded into it.
* `CHECK`/`CHECK_EQ` fatal assertions are modelled by `Option` results
  (`none` = the process aborts) where a claim can observe them, and by
  hypotheses restricting the input domain elsewhere.
-/

set_option linter.unusedSectionVars false

namespace VIO

/-- Triple of scalars standing for `cv::Point3f` (idealized coordinates). -/
abbrev Point3 (K : Type) := K × K × K

variable {K : Type} [LinearOrderedField K]

/-- Componentwise subtraction of 3-d points, as in `p1 - p2` on `cv::Point3f`. -/
def sub3 (a b : Point3 K) : Point3 K :=
  (a.1 - b.1, a.2.1 - b.2.1, a.2.2 - b.2.2)

/-- Dot product `a.ddot(b)` of `cv::Point3f`. -/
def dot3 (a b : Point3 K) : K :=
  a.1 * b.1 + a.2.1 * b.2.1 + a.2.2 * b.2.2

/-- Scalar multiple of a 3-d point. -/
def smul3 (c : K) (a : Point3 K) : Point3 K :=
  (c * a.1, c * a.2.1, c * a.2.2)

/-- Cross product `a.cross(b)` of `cv::Point3f`. -/
def cross3 (a b : Point3 K) : Point3 K :=
  (a.2.1 * b.2.2 - a.2.2 * b.2.1,
   a.2.2 * b.1 - a.1 * b.2.2,
   a.1 * b.2.1 - a.2.1 * b.1)

/-- Componentwise division of a point by a scalar, as in `v /= norm`. -/
def div3 (a : Point3 K) (c : K) : Point3 K :=
  (a.1 / c, a.2.1 / c, a.2.2 / c)

/-- The fixed vertical direction `cv::Point3f vertical (0, 0, 1)` used by the
segmenter. -/
def vertical3 : Point3 K := (0, 0, 1)

/-- Mesher::getRatioBetweenSmallestAndLargestSide (Mesher.cpp lines 146-164).
The two `boost::optional<double&>` receivers are modelled as in/out slots:
`none` means the caller supplied no receiver, `some v` means a receiver holding
the prior value `v`.  The function returns the ratio together with the final
contents of both slots. -/
def getRatioBetweenSmallestAndLargestSide (d12 d23 d31 : K)
    (minSide_out maxSide_out : Option K) : K × Option K × Option K :=
  let minSide := min d12 (min d23 d31)
  let maxSide := max d12 (max d23 d31)
  match minSide_out, maxSide_out with
  | some _, some _ => (minSide / maxSide, some minSide, some maxSide)
  | mo, xo => (minSide / maxSide, mo, xo)

/-- Mesher::isBadTriangle (Mesher.cpp lines 228-281).  `nrm` stands for
`cv::norm` applied to a difference of vertex positions and `elong` for
`getRatioBetweenTangentialAndRadialDisplacement` at the (fixed) camera pose;
both are opaque to the control flow being verified. -/
def isBadTriangle (nrm : Point3 K → K)
    (elong : Point3 K → Point3 K → Point3 K → K)
    (p1 p2 p3 : Point3 K)
    (min_ratio_between_largest_an_smallest_side min_elongation_ratio
      max_triangle_side : K) : Bool :=
  let d12 := nrm (sub3 p1 p2)
  let d23 := nrm (sub3 p2 p3)
  let d31 := nrm (sub3 p3 p1)
  let ratioSides : K :=
    if min_ratio_between_largest_an_smallest_side > 0 then
      (getRatioBetweenSmallestAndLargestSide d12 d23 d31 none none).1
    else 0
  let ratioTangentialRadial : K :=
    if min_elongation_ratio > 0 then elong p1 p2 p3 else 0
  let maxTriangleSide : K :=
    if max_triangle_side > 0 then max d12 (max d23 d31) else 0
  if ratioSides ≥ min_ratio_between_largest_an_smallest_side ∧
      ratioTangentialRadial ≥ min_elongation_ratio ∧
      maxTriangleSide ≤ max_triangle_side then
    false
  else
    true

/-- Modelled from the spec: the Mesh3D store (section 4.1) lives in
`mesh/Mesh.h`, which is not part of the two source files; the spec describes
it as a mapping landmark-id to a unique, mutable position slot plus an ordered
sequence of polygons referencing slots.  `verts` is the slot table (keyed by
landmark id, looked up by first match), `polys` the polygon sequence. -/
structure Mesh3D (K : Type) where
  verts : List (Int × Point3 K)
  polys : List (Int × Int × Int)
deriving DecidableEq

/-- Empty mesh (a fresh `Mesh3D mesh_output`). -/
def emptyMesh : Mesh3D K := ⟨[], []⟩

/-- One polygon worth of vertex data: three (landmark-id, position) pairs. -/
abbrev PolyVerts (K : Type) := (Int × Point3 K) × (Int × Point3 K) × (Int × Point3 K)

/-- Modelled from the spec: writing a position into the slot of a landmark id,
creating the slot if absent (overwrite semantics of `addPolygonToMesh`,
spec section 4.1). -/
def upsertVertex (vs : List (Int × Point3 K)) (l : Int) (p : Point3 K) :
    List (Int × Point3 K) :=
  if (vs.lookup l).isSome then
    vs.map (fun v => if v.1 = l then (l, p) else v)
  else
    vs ++ [(l, p)]

/-- Landmark-id triple of a polygon's vertex data. -/
def polyIds (pv : PolyVerts K) : Int × Int × Int :=
  (pv.1.1, pv.2.1.1, pv.2.2.1)

/-- Modelled from the spec: `Mesh3D::addPolygonToMesh` (spec section 4.1):
ensure a slot per vertex, write the supplied positions, append the polygon as
slot references.  Duplicate triangles are not de-duplicated. -/
def addPolygonToMesh (m : Mesh3D K) (pv : PolyVerts K) : Mesh3D K :=
  { verts := upsertVertex (upsertVertex (upsertVertex m.verts
      pv.1.1 pv.1.2) pv.2.1.1 pv.2.1.2) pv.2.2.1 pv.2.2.2,
    polys := m.polys ++ [polyIds pv] }

/-- Current vertex data of a stored polygon: each landmark id resolved through
the slot table (fails if a slot is missing, which `getPolygon`'s caller treats
as fatal). -/
def getTriVerts (m : Mesh3D K) (ids : Int × Int × Int) : Option (PolyVerts K) :=
  match m.verts.lookup ids.1, m.verts.lookup ids.2.1, m.verts.lookup ids.2.2 with
  | some p1, some p2, some p3 => some ((ids.1, p1), (ids.2.1, p2), (ids.2.2, p3))
  | _, _, _ => none

/-- Modelled from the spec: `Mesh3D::getPolygon i` returns polygon `i` as a
freshly-built list of (landmark-id, current position) vertices (spec section
4.1); the list always has three entries. -/
def getPolygon (m : Mesh3D K) (i : ℕ) : Option (List (Int × Point3 K)) :=
  match m.polys.get? i with
  | none => none
  | some ids => (getTriVerts m ids).map (fun pv => [pv.1, pv.2.1, pv.2.2])

/-- Current vertex data of the polygon stored at index `i` (the combination
`getPolygon` + position reads used by the mesh walks). -/
def getTriVertsAt (m : Mesh3D K) (i : ℕ) : Option (PolyVerts K) :=
  (m.polys.get? i).bind (getTriVerts m)

/-- Well-formedness: every stored polygon references existing vertex slots
(spec section 3 invariants).  The C++ code `CHECK`s this on every retrieval. -/
def MeshWF (m : Mesh3D K) : Prop :=
  ∀ ids ∈ m.polys, (getTriVerts m ids).isSome

instance (m : Mesh3D K) : Decidable (MeshWF m) := by
  unfold MeshWF; infer_instance

/-- Landmark-id to 3-d world point table (`std::unordered_map<LandmarkId,
gtsam::Point3>`), as an association list looked up by first match. -/
abbrev LmkMap (K : Type) := List (Int × Point3 K)

/-- Image pixel (`cv::Point2f`). -/
abbrev Pixel (K : Type) := K × K

/-- One triangle of the 2-d mesh (`cv::Vec6f`: three pixel vertices). -/
abbrev Tri2D (K : Type) := Pixel K × Pixel K × Pixel K

/-- Per-triangle vertex resolution of `Mesher::populate3dMesh` (Mesher.cpp
lines 329-376): pixels are mapped to landmark ids via
`Frame::findLmkIdFromPixel` (`frame`), each id looked up in the landmark
table.  The outer `none` models the fatal `CHECK_NE(lmk_id, -1)`; the inner
`none` means the triangle is abandoned because a vertex is missing from the
table (the loop `break`s, so later pixels are not even resolved). -/
def resolveTri (frame : Pixel K → Int) (tbl : LmkMap K) (t : Tri2D K) :
    Option (Option (PolyVerts K)) :=
  let l1 := frame t.1
  if l1 = -1 then none else
  match tbl.lookup l1 with
  | none => some none
  | some p1 =>
    let l2 := frame t.2.1
    if l2 = -1 then none else
    match tbl.lookup l2 with
    | none => some none
    | some p2 =>
      let l3 := frame t.2.2
      if l3 = -1 then none else
      match tbl.lookup l3 with
      | none => some none
      | some p3 => some (some ((l1, p1), (l2, p2), (l3, p3)))

/-- Per-triangle body of `Mesher::populate3dMesh` (Mesher.cpp lines 329-377):
resolve the three vertices; when all three are found, filter with
`isBadTriangle` and append the survivor to the mesh.  A prior fatal `CHECK`
(`none` accumulator) is propagated. -/
def popStep (nrm : Point3 K → K) (elong : Point3 K → Point3 K → Point3 K → K)
    (frame : Pixel K → Int) (tbl : LmkMap K) (mr me ms : K)
    (om : Option (Mesh3D K)) (t : Tri2D K) : Option (Mesh3D K) :=
  om.bind (fun m' =>
    (resolveTri frame tbl t).map (fun r =>
      match r with
      | none => m'
      | some pv =>
        if isBadTriangle nrm elong pv.1.2 pv.2.1.2 pv.2.2.2 mr me ms then
          m'
        else
          addPolygonToMesh m' pv))

/-- Mesher::populate3dMesh (Mesher.cpp lines 315-378): fold the per-triangle
step over the 2-d mesh; the 3-d mesh is NOT cleared first, polygons are
appended to whatever it already holds.  `none` models the fatal
landmark-lookup `CHECK`. -/
def populate3dMesh (nrm : Point3 K → K)
    (elong : Point3 K → Point3 K → Point3 K → K)
    (frame : Pixel K → Int) (tbl : LmkMap K)
    (mr me ms : K) (mesh_2d : List (Tri2D K)) (m : Mesh3D K) :
    Option (Mesh3D K) :=
  mesh_2d.foldl (popStep nrm elong frame tbl mr me ms) (some m)

/-- Per-polygon refresh step of `Mesher::updatePolygonMeshToTimeHorizon`
(Mesher.cpp lines 396-421): each vertex present in the table is overwritten
with the fresh position; a missing vertex drops the polygon when
`reduce_mesh_to_time_horizon` is set and keeps the stale position otherwise. -/
def refreshVert (tbl : LmkMap K) (v : Int × Point3 K) : Int × Point3 K :=
  match tbl.lookup v.1 with
  | some p => (v.1, p)
  | none => v

def refreshPoly (tbl : LmkMap K) (reduce_mesh_to_time_horizon : Bool)
    (pv : PolyVerts K) : Option (PolyVerts K) :=
  if reduce_mesh_to_time_horizon ∧
      ((tbl.lookup pv.1.1).isNone ∨ (tbl.lookup pv.2.1.1).isNone ∨
        (tbl.lookup pv.2.2.1).isNone) then
    none
  else
    some (refreshVert tbl pv.1, refreshVert tbl pv.2.1, refreshVert tbl pv.2.2)

/-- Per-polygon body of `Mesher::updatePolygonMeshToTimeHorizon` (Mesher.cpp
lines 396-434): refresh / drop the polygon against the table, then re-filter
with `isBadTriangle` with the elongation threshold hard-coded to -1, and add
the survivor to the fresh mesh being built. -/
def updStep (nrm : Point3 K → K) (elong : Point3 K → Point3 K → Point3 K → K)
    (tbl : LmkMap K) (mr ms : K) (reduce_mesh_to_time_horizon : Bool)
    (acc : Mesh3D K) (pv : PolyVerts K) : Mesh3D K :=
  match refreshPoly tbl reduce_mesh_to_time_horizon pv with
  | none => acc
  | some pv' =>
    if isBadTriangle nrm elong pv'.1.2 pv'.2.1.2 pv'.2.2.2 mr (-1) ms then
      acc
    else
      addPolygonToMesh acc pv'

/-- Mesher::updatePolygonMeshToTimeHorizon (Mesher.cpp lines 383-438): walk
every polygon of the current mesh through the refresh / re-filter step and
replace the mesh with the freshly built one at the end. -/
def updatePolygonMeshToTimeHorizon (nrm : Point3 K → K)
    (elong : Point3 K → Point3 K → Point3 K → K)
    (tbl : LmkMap K) (mr ms : K) (reduce_mesh_to_time_horizon : Bool)
    (m : Mesh3D K) : Mesh3D K :=
  (m.polys.filterMap (getTriVerts m)).foldl
    (updStep nrm elong tbl mr ms reduce_mesh_to_time_horizon) emptyMesh

/-- Mesher::populate3dMeshTimeHorizon (Mesher.cpp lines 285-311): build stage
followed by the prune/refresh stage; this is the whole per-frame mesh update
performed by `updateMesh3D` once the externally supplied 2-d triangulation is
in hand. -/
def populate3dMeshTimeHorizon (nrm : Point3 K → K)
    (elong : Point3 K → Point3 K → Point3 K → K)
    (frame : Pixel K → Int) (tbl : LmkMap K)
    (mr me ms : K) (reduce_mesh_to_time_horizon : Bool)
    (mesh_2d : List (Tri2D K)) (m : Mesh3D K) : Option (Mesh3D K) :=
  (populate3dMesh nrm elong frame tbl mr me ms mesh_2d m).map
    (updatePolygonMeshToTimeHorizon nrm elong tbl mr ms
      reduce_mesh_to_time_horizon)

/-- Mesher::isNormalAroundAxis (Mesher.cpp lines 535-545): the dot product of
two unit vectors is close to 1 or -1.  The `CHECK`ed preconditions (unit
norms, tolerance in (0,1)) constrain callers, not the comparison itself. -/
def isNormalAroundAxis (axis normal : Point3 K) (tolerance : K) : Bool :=
  |dot3 normal axis| > 1 - tolerance

/-- Mesher::isNormalPerpendicularToAxis (Mesher.cpp lines 581-590): dot
product close to 0 (the source's `cv::norm` of a scalar is its absolute
value). -/
def isNormalPerpendicularToAxis (axis normal : Point3 K) (tolerance : K) : Bool :=
  |dot3 normal axis| < tolerance

/-- Mesher::isPointAtDistanceFromPlane (Mesher.cpp lines 614-624). -/
def isPointAtDistanceFromPlane (point : Point3 K) (plane_distance : K)
    (plane_normal : Point3 K) (distance_tolerance : K) : Bool :=
  |plane_distance - dot3 point plane_normal| ≤ distance_tolerance

/-- Mesher::isPolygonAtDistanceFromPlane (Mesher.cpp lines 594-610): all three
vertices are close to the plane. -/
def isPolygonAtDistanceFromPlane (pv : PolyVerts K) (plane_distance : K)
    (plane_normal : Point3 K) (distance_tolerance : K) : Bool :=
  isPointAtDistanceFromPlane pv.1.2 plane_distance plane_normal
      distance_tolerance &&
    isPointAtDistanceFromPlane pv.2.1.2 plane_distance plane_normal
      distance_tolerance &&
    isPointAtDistanceFromPlane pv.2.2.2 plane_distance plane_normal
      distance_tolerance

/-- Modelled from the spec: the Plane record (spec section 3) lives outside
the two source files; it carries a gtsam symbol (char 'P' plus an index), a
normal, a signed distance, the clustered landmark ids and, inside its
`triangle_cluster_`, the polygon indices of the mesh plus a cluster tag. -/
structure Plane (K : Type) where
  sym : Char × ℕ
  normal : Point3 K
  distance : K
  lmk_ids : List Int
  cluster_id : ℤ
  triangle_ids : List ℕ
deriving DecidableEq

/-- Clearing a seed plane at the start of `segmentPlanesInMesh` (Mesher.cpp
lines 692-695). -/
def clearPlane (p : Plane K) : Plane K :=
  { p with lmk_ids := [], triangle_ids := [] }

/-- Mesher::appendLmkIdsOfPolygon (Mesher.cpp lines 1357-1387) restricted to
one landmark id: append unless already present; when
`add_extra_lmks_from_stereo` is set, also require the id to be in the VIO time
horizon. -/
def appendLmkId (add_extra_lmks_from_stereo : Bool) (vio : LmkMap K)
    (ids : List Int) (l : Int) : List Int :=
  if l ∈ ids then ids
  else if add_extra_lmks_from_stereo then
    if (vio.lookup l).isSome then ids ++ [l] else ids
  else ids ++ [l]

/-- Mesher::appendLmkIdsOfPolygon (Mesher.cpp lines 1357-1387): fold the three
vertices of a polygon. -/
def appendLmkIdsOfPolygon (add_extra_lmks_from_stereo : Bool) (vio : LmkMap K)
    (pv : PolyVerts K) (ids : List Int) : List Int :=
  appendLmkId add_extra_lmks_from_stereo vio
    (appendLmkId add_extra_lmks_from_stereo vio
      (appendLmkId add_extra_lmks_from_stereo vio ids pv.1.1) pv.2.1.1)
    pv.2.2.1

/-- Mesher::updatePlanesLmkIdsFromPolygon (Mesher.cpp lines 843-885): for each
plane, when the polygon's normal is around the plane normal and every vertex
is within the distance tolerance, append the polygon's landmark ids and its
index; report whether at least one plane consumed the polygon. -/
def clusterStep (add_extra_lmks_from_stereo : Bool) (vio : LmkMap K)
    (pv : PolyVerts K) (triangle_id : ℕ) (triangle_normal : Point3 K)
    (normal_tolerance distance_tolerance : K)
    (acc : List (Plane K) × Bool) (pl : Plane K) : List (Plane K) × Bool :=
  if isNormalAroundAxis pl.normal triangle_normal normal_tolerance &&
      isPolygonAtDistanceFromPlane pv pl.distance pl.normal
        distance_tolerance then
    (acc.1 ++ [{ pl with
      lmk_ids := appendLmkIdsOfPolygon add_extra_lmks_from_stereo vio pv
        pl.lmk_ids,
      triangle_ids := pl.triangle_ids ++ [triangle_id] }], true)
  else
    (acc.1 ++ [pl], acc.2)

def updatePlanesLmkIdsFromPolygon (add_extra_lmks_from_stereo : Bool)
    (vio : LmkMap K) (planes : List (Plane K)) (pv : PolyVerts K)
    (triangle_id : ℕ) (triangle_normal : Point3 K)
    (normal_tolerance distance_tolerance : K) : List (Plane K) × Bool :=
  planes.foldl
    (clusterStep add_extra_lmks_from_stereo vio pv triangle_id
      triangle_normal normal_tolerance distance_tolerance)
    ([], false)

/-- Modelled from the spec: `Histogram::PeakInfo` (spec section 4.2) comes
from the histogram engine, which is outside the two source files.  It carries
a bin position, the bin-center value and the support (vote count); peaks are
ordered by support so `std::max_element` finds the strongest. -/
structure PeakInfo (K : Type) where
  pos : ℤ
  value : K
  support : K
deriving DecidableEq

/-- Modelled from the spec: `Histogram::PeakInfo2D` (spec section 4.2), with
`x_value_` the theta bin center and `y_value_` the distance bin center. -/
structure PeakInfo2D (K : Type) where
  pos : ℤ × ℤ
  x_value : K
  y_value : K
deriving DecidableEq

/-- Duplicate/too-close peak cleanup loop of
`Mesher::segmentHorizontalPlanes` (Mesher.cpp lines 1006-1052), as an explicit
state machine: `p` is the position of `peak_it`, `i` the loop counter (which
the source lets drift below `p` after erasures), `prevIdx` / `prevDist` the
remembered previous peak.  The out-of-range read/erase through a stale
`previous_peak_it` is undefined behaviour in the source; the model stops the
loop there. -/
def cleanZPeaksGo (min_separation : K) :
    List (PeakInfo K) → ℕ → ℕ → ℕ → K → List (PeakInfo K)
  | peaks, p, i, prevIdx, prevDist =>
    if hp : p < peaks.length then
      let cur := peaks.get ⟨p, hp⟩
      if 0 < i ∧ peaks.get? (i - 1) = some cur then
        cleanZPeaksGo min_separation (peaks.eraseIdx p) p (i - 1) prevIdx
          prevDist
      else if 0 < i ∧ |prevDist - cur.value| < min_separation then
        if hq : prevIdx < peaks.length then
          if (peaks.get ⟨prevIdx, hq⟩).support < cur.support then
            cleanZPeaksGo min_separation (peaks.eraseIdx prevIdx) (i - 1)
              (i - 1) prevIdx prevDist
          else
            cleanZPeaksGo min_separation (peaks.eraseIdx p) p (i - 1) prevIdx
              prevDist
        else
          peaks
      else
        cleanZPeaksGo min_separation peaks (p + 1) (i + 1) p cur.value
    else
      peaks
termination_by peaks p _ _ _ => (peaks.length, peaks.length - p)
decreasing_by
  · left
    have := List.length_eraseIdx_add_one hp
    omega
  · left
    have := List.length_eraseIdx_add_one hq
    omega
  · left
    have := List.length_eraseIdx_add_one hp
    omega
  · right
    omega

/-- Entry point of the cleanup loop (starting at the vector's begin). -/
def cleanZPeaks (min_separation : K) (peaks : List (PeakInfo K)) :
    List (PeakInfo K) :=
  cleanZPeaksGo min_separation peaks 0 0 0 0

/-- Position of the first maximal-support peak, as found by
`std::max_element` with the support-ascending `operator<` (spec section 4.2):
the current best is replaced only on strictly greater support. -/
def idxOfFirstMax (peaks : List (PeakInfo K)) : Option ℕ :=
  match peaks with
  | [] => none
  | first :: rest =>
    some ((rest.foldl
      (fun (acc : ℕ × PeakInfo K × ℕ) pk =>
        if acc.2.1.support < pk.support then (acc.2.2, pk, acc.2.2 + 1)
        else (acc.1, acc.2.1, acc.2.2 + 1))
      (0, first, 1)).1)

/-- Peak selection loop of `Mesher::segmentHorizontalPlanes` (Mesher.cpp lines
1054-1090): up to `max_peaks` times, pick the strongest remaining peak and
remove it. -/
def selectZPeaks : ℕ → List (PeakInfo K) → List (PeakInfo K)
  | 0, _ => []
  | n + 1, peaks =>
    match idxOfFirstMax peaks with
    | none => []
    | some j =>
      match peaks.get? j with
      | none => []
      | some pk => pk :: selectZPeaks n (peaks.eraseIdx j)

/-- Mesher::segmentHorizontalPlanes (Mesher.cpp lines 983-1091): the peaks
extracted from the z histogram (supplied here directly, since the histogram
engine is outside the source files) are cleaned, then up to
`z_histogram_max_number_of_peaks_to_select` strongest peaks each yield a plane
with symbol ('P', counter), the given (vertical) normal, the peak's value as
distance and cluster tag 2, incrementing the counter per plane. -/
def horizPush (normal : Point3 K) (acc : List (Plane K) × ℕ)
    (pk : PeakInfo K) : List (Plane K) × ℕ :=
  (acc.1 ++ [⟨('P', acc.2), normal, pk.value, [], 2, []⟩], acc.2 + 1)

def segmentHorizontalPlanes (min_separation : K) (max_peaks : ℕ)
    (normal : Point3 K) (peaks : List (PeakInfo K)) (plane_id : ℕ) :
    List (Plane K) × ℕ :=
  (selectZPeaks max_peaks (cleanZPeaks min_separation peaks)).foldl
    (horizPush normal) ([], plane_id)

/-- Mesher::segmentWalls (Mesher.cpp lines 920-977): each 2-d histogram peak
yields a plane with symbol ('P', counter), normal (cos theta, sin theta, 0)
(`cosO` / `sinO` stand for the transcendental cos / sin), the peak's distance
and cluster tag 1, incrementing the counter per plane. -/
def wallPush (cosO sinO : K → K) (acc : List (Plane K) × ℕ)
    (pk : PeakInfo2D K) : List (Plane K) × ℕ :=
  (acc.1 ++ [⟨('P', acc.2), (cosO pk.x_value, sinO pk.x_value, 0),
    pk.y_value, [], 1, []⟩], acc.2 + 1)

def segmentWalls (cosO sinO : K → K) (peaks2 : List (PeakInfo2D K))
    (plane_id : ℕ) : List (Plane K) × ℕ :=
  peaks2.foldl (wallPush cosO sinO) ([], plane_id)

/-- Mesher::segmentNewPlanes (Mesher.cpp lines 895-914): clear the output,
segment horizontal planes then walls, threading the function-local `static
size_t plane_id` counter, which is made explicit state here (taken in,
returned out). -/
def segmentNewPlanes (min_separation : K) (max_peaks : ℕ) (cosO sinO : K → K)
    (zPeaks : List (PeakInfo K)) (wallPeaks : List (PeakInfo2D K))
    (plane_id : ℕ) : List (Plane K) × ℕ :=
  let hz := segmentHorizontalPlanes min_separation max_peaks vertical3 zPeaks
    plane_id
  let wl := segmentWalls cosO sinO wallPeaks hz.2
  (hz.1 ++ wl.1, wl.2)

/-- Wall-sample normalization inside the segmentation walk (Mesher.cpp lines
754-769): theta is the longitude of the triangle normal (`longO`, the
transcendental `getLongitude` made a parameter here; instantiated with the
real one for the claims about it) and the distance is `p1 . normal`; a
negative theta is replaced by (theta + pi, -distance), `piv` standing for
`PI`. -/
def wallSampleK (longO : Point3 K → K) (piv : K) (triangle_normal p1 : Point3 K) :
    K × K :=
  let theta := longO triangle_normal
  let distance := dot3 p1 triangle_normal
  if theta < 0 then (theta + piv, -distance) else (theta, distance)

/-- One iteration of the polygon walk of `Mesher::segmentPlanesInMesh`
(Mesher.cpp lines 706-776), acting on the state (seed planes, z-histogram
samples, wall-histogram samples).  `calcN` stands for
`Mesher::calculateNormal` (a square-root computation; the real version is
`calculateNormalR` below), returning `none` on a degenerate triangle, in
which case the polygon is skipped entirely. -/
def segmentStep (add_extra_lmks_from_stereo : Bool) (vio : LmkMap K)
    (calcN : Point3 K → Point3 K → Point3 K → Option (Point3 K))
    (longO : Point3 K → K) (piv : K) (only_use_non_clustered_points : Bool)
    (normal_tolerance distance_tolerance tol_horizontal tol_walls : K)
    (st : List (Plane K) × List K × List (K × K)) (i : ℕ) (pv : PolyVerts K) :
    List (Plane K) × List K × List (K × K) :=
  match calcN pv.1.2 pv.2.1.2 pv.2.2.2 with
  | none => st
  | some triangle_normal =>
    let upd := updatePlanesLmkIdsFromPolygon add_extra_lmks_from_stereo vio
      st.1 pv i triangle_normal normal_tolerance distance_tolerance
    let eligible : Bool := if only_use_non_clustered_points then !upd.2 else true
    let zs := if eligible &&
        isNormalAroundAxis vertical3 triangle_normal tol_horizontal then
      st.2.1 ++ [pv.1.2.2.2, pv.2.1.2.2.2, pv.2.2.2.2.2]
    else st.2.1
    let ws := if eligible &&
        isNormalPerpendicularToAxis vertical3 triangle_normal tol_walls then
      st.2.2 ++ [wallSampleK longO piv triangle_normal pv.1.2]
    else st.2.2
    (upd.1, zs, ws)

/-- Index-threading recursion over the stored polygons, used by both mesh
walks (the source loops `for i < getNumberOfPolygons()` and `CHECK`s each
`getPolygon`; a polygon whose slots dangle would abort the process, which the
well-formedness hypotheses of the theorems exclude). -/
def walkPolys (m : Mesh3D K) (step : α → ℕ → PolyVerts K → α) :
    ℕ → List (Int × Int × Int) → α → α
  | _, [], st => st
  | i, ids :: rest, st =>
    match getTriVerts m ids with
    | none => walkPolys m step (i + 1) rest st
    | some pv => walkPolys m step (i + 1) rest (step st i pv)

/-- Mesher::segmentPlanesInMesh (Mesher.cpp lines 680-783): clear the seed
planes, walk the mesh once clustering polygons onto seeds and accumulating
histogram samples for new planes.  Returns the updated seeds and both sample
buffers (the subsequent `segmentNewPlanes` call of the source is performed by
`clusterPlanesFromMesh` below). -/
def segmentPlanesInMesh (add_extra_lmks_from_stereo : Bool) (vio : LmkMap K)
    (calcN : Point3 K → Point3 K → Point3 K → Option (Point3 K))
    (longO : Point3 K → K) (piv : K) (only_use_non_clustered_points : Bool)
    (normal_tolerance distance_tolerance tol_horizontal tol_walls : K)
    (seed_planes : List (Plane K)) (m : Mesh3D K) :
    List (Plane K) × List K × List (K × K) :=
  walkPolys m
    (segmentStep add_extra_lmks_from_stereo vio calcN longO piv
      only_use_non_clustered_points normal_tolerance distance_tolerance
      tol_horizontal tol_walls)
    0 m.polys (seed_planes.map clearPlane, [], [])

/-- Mesher::updatePlanesLmkIdsFromMesh (Mesher.cpp lines 806-837): a second
mesh walk applying `updatePlanesLmkIdsFromPolygon` with the same tolerances,
used to fill the landmark ids of the new non-associated planes. -/
def updatePlanesLmkIdsFromMesh (add_extra_lmks_from_stereo : Bool)
    (vio : LmkMap K)
    (calcN : Point3 K → Point3 K → Point3 K → Option (Point3 K))
    (normal_tolerance distance_tolerance : K) (planes : List (Plane K))
    (m : Mesh3D K) : List (Plane K) :=
  walkPolys m
    (fun ps i pv =>
      match calcN pv.1.2 pv.2.1.2 pv.2.2.2 with
      | none => ps
      | some triangle_normal =>
        (updatePlanesLmkIdsFromPolygon add_extra_lmks_from_stereo vio ps pv i
          triangle_normal normal_tolerance distance_tolerance).1)
    0 m.polys planes

/-- Inner backend-plane search of `Mesher::associatePlanes` (Mesher.cpp lines
1126-1194) for one segmented plane: scan the backend planes in order; on a
`geometricEqual` match (`geq`, modelled from the spec since `Plane` lives
outside the source files) with an unused backend symbol index, record the
index and succeed; on a match with a used index, succeed without recording
when `do_double_association` is set and keep searching otherwise.  Returns
whether the segmented plane was associated and the updated used-index list. -/
def associateOne (geq : Plane K → Plane K → Bool)
    (do_double_association : Bool) (used : List ℕ) (segmented : Plane K) :
    List (Plane K) → Bool × List ℕ
  | [] => (false, used)
  | b :: rest =>
    if geq b segmented then
      if b.sym.2 ∈ used then
        if do_double_association then (true, used)
        else associateOne geq do_double_association used segmented rest
      else (true, used ++ [b.sym.2])
    else associateOne geq do_double_association used segmented rest

/-- Mesher::associatePlanes (Mesher.cpp lines 1095-1218): with no backend
planes, every segmented plane is emitted as non-associated; otherwise each
segmented plane searches the backend planes and, when the search fails, is
pushed unchanged onto the non-associated output.  The function-local
`associated_plane_ids` vector is returned alongside the output it governs. -/
def assocStep (geq : Plane K → Plane K → Bool) (do_double_association : Bool)
    (planes : List (Plane K)) (acc : List (Plane K) × List ℕ)
    (sp : Plane K) : List (Plane K) × List ℕ :=
  let r := associateOne geq do_double_association acc.2 sp planes
  (if r.1 then acc.1 else acc.1 ++ [sp], r.2)

def associatePlanes (geq : Plane K → Plane K → Bool)
    (do_double_association : Bool) (segmented_planes planes : List (Plane K)) :
    List (Plane K) × List ℕ :=
  if planes.length = 0 then
    (segmented_planes, [])
  else
    segmented_planes.foldl (assocStep geq do_double_association planes)
      ([], [])

/-- Mesher::clusterPlanesFromMesh (Mesher.cpp lines 630-673): segment planes
in the mesh using the seeds, associate the newly segmented planes against the
seeds, fill the landmark ids of the non-associated ones with a second mesh
walk, and append them to the seed planes.  The plane-id counter state of
`segmentNewPlanes` is threaded explicitly. -/
def clusterPlanesFromMesh (add_extra_lmks_from_stereo : Bool) (vio : LmkMap K)
    (calcN : Point3 K → Point3 K → Point3 K → Option (Point3 K))
    (longO : Point3 K → K) (piv : K) (cosO sinO : K → K)
    (zPeaksO : List K → List (PeakInfo K))
    (wallPeaksO : List (K × K) → List (PeakInfo2D K))
    (only_use_non_clustered_points do_double_association : Bool)
    (normal_tolerance distance_tolerance
      normal_tolerance_plane_plane distance_tolerance_plane_plane
      tol_horizontal tol_walls min_separation : K) (max_peaks : ℕ)
    (geq : K → K → Plane K → Plane K → Bool)
    (planes : List (Plane K)) (m : Mesh3D K) (plane_id : ℕ) :
    List (Plane K) × ℕ :=
  let seg := segmentPlanesInMesh add_extra_lmks_from_stereo vio calcN longO
    piv only_use_non_clustered_points normal_tolerance distance_tolerance
    tol_horizontal tol_walls planes m
  let np := segmentNewPlanes min_separation max_peaks cosO sinO
    (zPeaksO seg.2.1) (wallPeaksO seg.2.2) plane_id
  let assoc := associatePlanes
    (geq normal_tolerance_plane_plane distance_tolerance_plane_plane)
    do_double_association np.1 seg.1
  let nonAssoc :=
    if 0 < assoc.1.length then
      updatePlanesLmkIdsFromMesh add_extra_lmks_from_stereo vio calcN
        normal_tolerance distance_tolerance assoc.1 m
    else assoc.1
  (seg.1 ++ nonAssoc, np.2)

/-- Rounded pixel coordinates of the three triangle vertices in
`UtilsOpenCV::FindHighIntensityInTriangle` (UtilsOpenCV.cpp lines 805-810). -/
structure TriPx where
  x0 : ℤ
  y0 : ℤ
  x1 : ℤ
  y1 : ℤ
  x2 : ℤ
  y2 : ℤ
deriving DecidableEq

/-- Left edge of the bounding box (UtilsOpenCV.cpp line 813). -/
def topLeftX (t : TriPx) : ℤ := min t.x0 (min t.x1 t.x2)

/-- Right edge of the bounding box (UtilsOpenCV.cpp line 815). -/
def botRightX (t : TriPx) : ℤ := max t.x0 (max t.x1 t.x2)

/-- Top edge of the bounding box (UtilsOpenCV.cpp line 814). -/
def topLeftY (t : TriPx) : ℤ := min t.y0 (min t.y1 t.y2)

/-- Bottom edge of the bounding box (UtilsOpenCV.cpp line 816). -/
def botRightY (t : TriPx) : ℤ := max t.y0 (max t.y1 t.y2)

/-- Row intersection with one triangle edge (UtilsOpenCV.cpp lines 843-874):
skip horizontal edges; otherwise take the barycentric coordinate `lambda` of
row `r` on the edge and, when it lies in [0,1], the rounded interpolated
column.  The `double` arithmetic is exact here (a ratio of integers), so it
is modelled over `ℚ`. -/
def segX (r yA xA yB xB : ℤ) : Option ℤ :=
  if yA = yB then none
  else
    let lam : ℚ := ((r : ℚ) - (yB : ℚ)) / ((yA : ℚ) - (yB : ℚ))
    if 0 ≤ lam ∧ lam ≤ 1 then
      some (round (lam * (xA : ℚ) + (1 - lam) * (xB : ℚ)))
    else none

/-- Candidate columns contributed by the three edges for row `r`
(UtilsOpenCV.cpp lines 843-874, edges 01, 12, 20 in source order). -/
def rowCandidates (t : TriPx) (r : ℤ) : List ℤ :=
  [segX r t.y0 t.x0 t.y1 t.x1,
   segX r t.y1 t.x1 t.y2 t.x2,
   segX r t.y2 t.x2 t.y0 t.x0].reduceOption

/-- Row minimum column: `min_x` starts at the right edge and shrinks over the
candidates (UtilsOpenCV.cpp lines 839, 849, 860, 871). -/
def rowMinX (t : TriPx) (r : ℤ) : ℤ :=
  (rowCandidates t r).foldl min (botRightX t)

/-- Row maximum column: `max_x` starts at the left edge and grows over the
candidates (UtilsOpenCV.cpp lines 840, 850, 861, 872). -/
def rowMaxX (t : TriPx) (r : ℤ) : ℤ :=
  (rowCandidates t r).foldl max (topLeftX t)

/-- Sanity check and row result of the rasterizer (UtilsOpenCV.cpp lines
876-882): `none` models the fatal `inconsistent extrema` exception, raised
exactly when `min_x < topLeft_x || max_x > botRight_x`; otherwise the scan of
the row proceeds with the computed extrema. -/
def rowScan (t : TriPx) (r : ℤ) : Option (ℤ × ℤ) :=
  if rowMinX t r < topLeftX t ∨ botRightX t < rowMaxX t r then none
  else some (rowMinX t r, rowMaxX t r)

/-- Euclidean norm of a 3-d real point (`cv::norm`). -/
noncomputable def norm3R (p : Point3 ℝ) : ℝ := Real.sqrt (dot3 p p)

/-- Mesher::calculateNormal (Mesher.cpp lines 476-513) over the reals:
normalize the two edge vectors (their norms are `CHECK`ed positive, which the
hypotheses p2 != p1 and p3 != p1 of the theorems guarantee), report failure
(`none`) when they are aligned within 1e-3, and otherwise return the
normalized cross product of the normalized edges. -/
noncomputable def calculateNormalR (p1 p2 p3 : Point3 ℝ) : Option (Point3 ℝ) :=
  let v21 := sub3 p2 p1
  let v31 := sub3 p3 p1
  let u := div3 v21 (norm3R v21)
  let w := div3 v31 (norm3R v31)
  if |dot3 u w| ≥ 1 - 1 / 1000 then none
  else some (div3 (cross3 u w) (norm3R (cross3 u w)))

/-- Two-argument arctangent `std::atan2(y, x)`, with range (-pi, pi], as the
argument of the complex number x + y i. -/
noncomputable def atan2R (y x : ℝ) : ℝ := Complex.arg ⟨x, y⟩

/-- Mesher::getLongitude (Mesher.cpp lines 788-799): project the normal onto
the equatorial plane of the vertical and take the atan2 of the projection's
(y, x) components. -/
noncomputable def getLongitudeR (triangle_normal vert : Point3 ℝ) : ℝ :=
  let equatorial_proj :=
    sub3 triangle_normal (smul3 (dot3 vert triangle_normal) vert)
  atan2R equatorial_proj.2.1 equatorial_proj.1

/-- Wall-histogram sample of the segmentation walk with the real longitude
(Mesher.cpp lines 754-769 instantiated with the real `getLongitude` and PI). -/
noncomputable def wallSampleR (triangle_normal p1 : Point3 ℝ) : ℝ × ℝ :=
  wallSampleK (fun n => getLongitudeR n vertical3) Real.pi triangle_normal p1

lemma ite_false_true_eq_false (c : Prop) [Decidable c] :
    ((if c then false else true) = false) ↔ c := by
  split_ifs with h <;> simp [h]

lemma disabled_ge_iff (v t : K) : (if t > 0 then v else 0) ≥ t ↔ t ≤ 0 ∨ v ≥ t := by
  split_ifs with h
  · constructor
    · exact fun hv => Or.inr hv
    · rintro (ht | hv)
      · exact absurd h (not_lt.mpr ht)
      · exact hv
  · have ht : t ≤ 0 := not_lt.mp h
    constructor
    · exact fun _ => Or.inl ht
    · exact fun _ => ht

lemma disabled_le_iff (v t : K) :
    (if t > 0 then v else 0) ≤ t ↔ (0 < t ∧ v ≤ t) ∨ t = 0 := by
  split_ifs with h
  · constructor
    · exact fun hv => Or.inl ⟨h, hv⟩
    · rintro (⟨_, hv⟩ | ht)
      · exact hv
      · exact absurd (ht ▸ h) (lt_irrefl 0)
  · have ht : t ≤ 0 := not_lt.mp h
    constructor
    · exact fun h0 => Or.inr (le_antisymm ht h0)
    · rintro (⟨h0, _⟩ | ht0)
      · exact absurd h0 h
      · exact le_of_eq ht0.symm

/-- Characterization of the triangle filter, shared by several theorems:
the ratio and elongation checks are disabled by any nonpositive threshold,
while the max-side check is only disabled by a threshold of exactly 0 (a
negative threshold rejects every triangle, since the sentinel value 0 is not
below it). -/
lemma isBadTriangle_eq_false_iff (nrm : Point3 K → K)
    (elong : Point3 K → Point3 K → Point3 K → K) (p1 p2 p3 : Point3 K)
    (mr me ms : K) :
    isBadTriangle nrm elong p1 p2 p3 mr me ms = false ↔
      ((mr ≤ 0 ∨
          (getRatioBetweenSmallestAndLargestSide (nrm (sub3 p1 p2))
            (nrm (sub3 p2 p3)) (nrm (sub3 p3 p1)) none none).1 ≥ mr) ∧
        (me ≤ 0 ∨ elong p1 p2 p3 ≥ me) ∧
        ((0 < ms ∧
            max (nrm (sub3 p1 p2)) (max (nrm (sub3 p2 p3)) (nrm (sub3 p3 p1)))
              ≤ ms) ∨
          ms = 0)) := by
  unfold isBadTriangle
  rw [ite_false_true_eq_false]
  exact and_congr (disabled_ge_iff _ _)
    (and_congr (disabled_ge_iff _ _) (disabled_le_iff _ _))

/-- Passing the full filter implies passing the refresh-stage filter, which
re-runs `isBadTriangle` with the elongation threshold hard-coded to -1. -/
lemma isBadTriangle_elong_disabled (nrm : Point3 K → K)
    (elong : Point3 K → Point3 K → Point3 K → K) (p1 p2 p3 : Point3 K)
    (mr me ms : K)
    (h : isBadTriangle nrm elong p1 p2 p3 mr me ms = false) :
    isBadTriangle nrm elong p1 p2 p3 mr (-1) ms = false := by
  rw [isBadTriangle_eq_false_iff] at h ⊢
  refine ⟨h.1, Or.inl (by norm_num), h.2.2⟩

/-- C1 (corrected).  Mesher::isBadTriangle returns `false` (good triangle)
precisely when all three checks pass, where the smallest/largest-side-ratio
check and the elongation check are disabled (pass for every triangle) by any
threshold that is 0 or negative, while the max-side check passes for every
triangle only when its threshold is exactly 0: a max-side threshold of -1
rejects every triangle instead of disabling the check. -/
theorem isBadTriangle_characterization (nrm : Point3 K → K)
    (elong : Point3 K → Point3 K → Point3 K → K) (p1 p2 p3 : Point3 K)
    (mr me ms : K) :
    isBadTriangle nrm elong p1 p2 p3 mr me ms = false ↔
      ((mr ≤ 0 ∨
          (getRatioBetweenSmallestAndLargestSide (nrm (sub3 p1 p2))
            (nrm (sub3 p2 p3)) (nrm (sub3 p3 p1)) none none).1 ≥ mr) ∧
        (me ≤ 0 ∨ elong p1 p2 p3 ≥ me) ∧
        ((0 < ms ∧
            max (nrm (sub3 p1 p2)) (max (nrm (sub3 p2 p3)) (nrm (sub3 p3 p1)))
              ≤ ms) ∨
          ms = 0)) :=
  isBadTriangle_eq_false_iff nrm elong p1 p2 p3 mr me ms

/-- C1 counterexample.  The claim says a max_triangle_side threshold of -1
disables the max-side check, so with all three thresholds in {0, -1} every
triangle should be good (`false`).  On the code, the degenerate triangle at
the origin with thresholds (0, 0, -1) is rejected (`true`), while the same
triangle with thresholds (0, 0, 0) is accepted: -1 does not disable the
max-side check. -/
theorem isBadTriangle_minus_one_counterexample :
    isBadTriangle (K := ℚ) (fun _ => 0) (fun _ _ _ => 0) (0, 0, 0) (0, 0, 0)
        (0, 0, 0) 0 0 (-1) = true ∧
      isBadTriangle (K := ℚ) (fun _ => 0) (fun _ _ _ => 0) (0, 0, 0) (0, 0, 0)
        (0, 0, 0) 0 0 0 = false := by
  constructor <;> rfl

/-- C10 (confirmed).  Mesher::getRatioBetweenSmallestAndLargestSide returns
min(d12,d23,d31)/max(d12,d23,d31) for every combination of supplied
receivers, writes the min and max sides into the receivers exactly when both
are supplied, and leaves both untouched (prior values kept) when only one of
the two is supplied. -/
theorem getRatioBetweenSmallestAndLargestSide_spec :
    ∀ (d12 d23 d31 a b : K) (mo xo : Option K),
      (getRatioBetweenSmallestAndLargestSide d12 d23 d31 mo xo).1 =
          min d12 (min d23 d31) / max d12 (max d23 d31) ∧
        (getRatioBetweenSmallestAndLargestSide d12 d23 d31 (some a)
            (some b)).2 =
          (some (min d12 (min d23 d31)), some (max d12 (max d23 d31))) ∧
        (getRatioBetweenSmallestAndLargestSide d12 d23 d31 (some a) none).2 =
          (some a, none) ∧
        (getRatioBetweenSmallestAndLargestSide d12 d23 d31 none (some b)).2 =
          (none, some b) ∧
        (getRatioBetweenSmallestAndLargestSide d12 d23 d31 none none).2 =
          (none, none) := by
  intro d12 d23 d31 a b mo xo
  refine ⟨?_, rfl, rfl, rfl, rfl⟩
  cases mo <;> cases xo <;> rfl

section PushFold

variable {τ : Type}

lemma pushFold_snd (g : (List (Plane K) × ℕ) → τ → (List (Plane K) × ℕ))
    (f : ℕ → τ → Plane K)
    (hg : ∀ acc pk, g acc pk = (acc.1 ++ [f acc.2 pk], acc.2 + 1))
    (l : List τ) :
    ∀ (acc0 : List (Plane K)) (n0 : ℕ),
      (l.foldl g (acc0, n0)).2 = n0 + l.length := by
  induction l with
  | nil => intro acc0 n0; simp
  | cons hd tl ih =>
    intro acc0 n0
    rw [List.foldl_cons, hg]
    rw [ih (acc0 ++ [f n0 hd]) (n0 + 1)]
    simp [List.length_cons]
    omega

lemma pushFold_fst_length (g : (List (Plane K) × ℕ) → τ → (List (Plane K) × ℕ))
    (f : ℕ → τ → Plane K)
    (hg : ∀ acc pk, g acc pk = (acc.1 ++ [f acc.2 pk], acc.2 + 1))
    (l : List τ) :
    ∀ (acc0 : List (Plane K)) (n0 : ℕ),
      (l.foldl g (acc0, n0)).1.length = acc0.length + l.length := by
  induction l with
  | nil => intro acc0 n0; simp
  | cons hd tl ih =>
    intro acc0 n0
    rw [List.foldl_cons, hg]
    rw [ih (acc0 ++ [f n0 hd]) (n0 + 1)]
    simp [List.length_cons, List.length_append]
    omega

lemma pushFold_map_sym (g : (List (Plane K) × ℕ) → τ → (List (Plane K) × ℕ))
    (f : ℕ → τ → Plane K)
    (hg : ∀ acc pk, g acc pk = (acc.1 ++ [f acc.2 pk], acc.2 + 1))
    (hf : ∀ c pk, (f c pk).sym = ('P', c)) (l : List τ) :
    ∀ (acc0 : List (Plane K)) (n0 : ℕ),
      (l.foldl g (acc0, n0)).1.map Plane.sym =
        acc0.map Plane.sym ++
          (List.range' n0 l.length).map (fun c => (('P', c) : Char × ℕ)) := by
  induction l with
  | nil => intro acc0 n0; simp
  | cons hd tl ih =>
    intro acc0 n0
    rw [List.foldl_cons, hg]
    rw [ih (acc0 ++ [f n0 hd]) (n0 + 1)]
    rw [show (List.range' n0 (hd :: tl).length) =
      n0 :: List.range' (n0 + 1) tl.length from List.range'_succ n0 tl.length 1]
    simp [List.map_append, hf]

lemma pushFold_mem_triangle_ids
    (g : (List (Plane K) × ℕ) → τ → (List (Plane K) × ℕ))
    (f : ℕ → τ → Plane K)
    (hg : ∀ acc pk, g acc pk = (acc.1 ++ [f acc.2 pk], acc.2 + 1))
    (hf : ∀ c pk, (f c pk).triangle_ids = []) (l : List τ) :
    ∀ (acc0 : List (Plane K)) (n0 : ℕ) (q : Plane K),
      q ∈ (l.foldl g (acc0, n0)).1 → q ∈ acc0 ∨ q.triangle_ids = [] := by
  induction l with
  | nil => intro acc0 n0 q hq; exact Or.inl (by simpa using hq)
  | cons hd tl ih =>
    intro acc0 n0 q hq
    rw [List.foldl_cons, hg] at hq
    rcases ih (acc0 ++ [f n0 hd]) (n0 + 1) q hq with h | h
    · rcases List.mem_append.mp h with h' | h'
      · exact Or.inl h'
      · right
        rw [List.mem_singleton.mp h']
        exact hf n0 hd
    · exact Or.inr h

end PushFold

/-- C4 (confirmed).  Mesher::segmentNewPlanes assigns the newly segmented
planes (horizontal ones first, then walls) the symbols ('P', c), ('P', c+1),
... in order of creation, starting at the current value c of the process-local
plane counter, and leaves the counter at c + (number of planes created): the
counter is incremented exactly once per created plane and never decremented
or reset, so plane symbol indices are strictly increasing in order of
creation and an index is never reused by a later call, which resumes from the
returned counter. -/
theorem segmentNewPlanes_symbols_consecutive (min_separation : K)
    (max_peaks : ℕ) (cosO sinO : K → K) (zPeaks : List (PeakInfo K))
    (wallPeaks : List (PeakInfo2D K)) (id0 : ℕ) :
    (segmentNewPlanes min_separation max_peaks cosO sinO zPeaks wallPeaks
        id0).1.map Plane.sym =
      (List.range' id0 (segmentNewPlanes min_separation max_peaks cosO sinO
          zPeaks wallPeaks id0).1.length).map
        (fun c => (('P', c) : Char × ℕ)) ∧
    (segmentNewPlanes min_separation max_peaks cosO sinO zPeaks wallPeaks
        id0).2 =
      id0 + (segmentNewPlanes min_separation max_peaks cosO sinO zPeaks
          wallPeaks id0).1.length := by
  simp only [segmentNewPlanes, segmentHorizontalPlanes, segmentWalls]
  set sel := selectZPeaks max_peaks (cleanZPeaks min_separation zPeaks) with hsel
  have h1 := pushFold_map_sym (horizPush (K := K) vertical3)
    (fun c pk => ⟨('P', c), vertical3, pk.value, [], 2, []⟩)
    (fun _ _ => rfl) (fun _ _ => rfl) sel [] id0
  have h1l := pushFold_fst_length (horizPush (K := K) vertical3)
    (fun c pk => ⟨('P', c), vertical3, pk.value, [], 2, []⟩)
    (fun _ _ => rfl) sel [] id0
  have h1s := pushFold_snd (horizPush (K := K) vertical3)
    (fun c pk => ⟨('P', c), vertical3, pk.value, [], 2, []⟩)
    (fun _ _ => rfl) sel [] id0
  have h2 := pushFold_map_sym (wallPush cosO sinO)
    (fun c pk => ⟨('P', c), (cosO pk.x_value, sinO pk.x_value, 0),
      pk.y_value, [], 1, []⟩)
    (fun _ _ => rfl) (fun _ _ => rfl) wallPeaks [] (id0 + sel.length)
  have h2l := pushFold_fst_length (wallPush cosO sinO)
    (fun c pk => ⟨('P', c), (cosO pk.x_value, sinO pk.x_value, 0),
      pk.y_value, [], 1, []⟩)
    (fun _ _ => rfl) wallPeaks [] (id0 + sel.length)
  have h2s := pushFold_snd (wallPush cosO sinO)
    (fun c pk => ⟨('P', c), (cosO pk.x_value, sinO pk.x_value, 0),
      pk.y_value, [], 1, []⟩)
    (fun _ _ => rfl) wallPeaks [] (id0 + sel.length)
  simp only [List.map_nil, List.nil_append, List.length_nil, Nat.zero_add]
    at h1 h1l h1s h2 h2l h2s
  rw [h1s]
  constructor
  · rw [List.map_append, h1, h2, List.length_append, h1l, h2l]
    rw [← List.map_append]
    congr 1
    have h := List.range'_append id0 sel.length wallPeaks.length 1
    rw [one_mul] at h
    rw [h, Nat.add_comm wallPeaks.length sel.length]
  · rw [h2s, List.length_append, h1l, h2l]
    omega

lemma associateOne_spec (geq : Plane K → Plane K → Bool) (sp : Plane K) :
    ∀ (bs : List (Plane K)) (used : List ℕ),
      associateOne geq false used sp bs = (false, used) ∨
      ∃ x, x ∉ used ∧ (∃ b ∈ bs, b.sym.2 = x) ∧
        associateOne geq false used sp bs = (true, used ++ [x]) := by
  intro bs
  induction bs with
  | nil => intro used; exact Or.inl rfl
  | cons b rest ih =>
    intro used
    by_cases hgeq : geq b sp
    · by_cases hmem : b.sym.2 ∈ used
      · rcases ih used with h | ⟨x, hx, ⟨b', hb', hbx⟩, h⟩
        · left
          rw [associateOne, if_pos hgeq, if_pos hmem]
          simpa using h
        · right
          refine ⟨x, hx, ⟨b', List.mem_cons_of_mem b hb', hbx⟩, ?_⟩
          rw [associateOne, if_pos hgeq, if_pos hmem]
          simpa using h
      · right
        refine ⟨b.sym.2, hmem, ⟨b, List.mem_cons_self b rest, rfl⟩, ?_⟩
        rw [associateOne, if_pos hgeq, if_neg hmem]
    · rcases ih used with h | ⟨x, hx, ⟨b', hb', hbx⟩, h⟩
      · left
        rw [associateOne, if_neg hgeq]
        exact h
      · right
        exact ⟨x, hx, ⟨b', List.mem_cons_of_mem b hb', hbx⟩, by
          rw [associateOne, if_neg hgeq]; exact h⟩

lemma assocFold_spec (geq : Plane K → Plane K → Bool)
    (backends : List (Plane K)) (sps : List (Plane K)) :
    ∀ (na : List (Plane K)) (us : List ℕ),
      (∃ s', s'.Sublist sps ∧
          (sps.foldl (assocStep geq false backends) (na, us)).1 = na ++ s') ∧
      (us.Nodup →
        (sps.foldl (assocStep geq false backends) (na, us)).2.Nodup) ∧
      (∀ x ∈ (sps.foldl (assocStep geq false backends) (na, us)).2,
        x ∈ us ∨ ∃ b ∈ backends, b.sym.2 = x) ∧
      (sps.foldl (assocStep geq false backends) (na, us)).1.length +
          (sps.foldl (assocStep geq false backends) (na, us)).2.length =
        na.length + us.length + sps.length := by
  induction sps with
  | nil =>
    intro na us
    refine ⟨⟨[], List.nil_sublist _, by simp⟩, fun h => h, fun x hx => Or.inl hx,
      by simp⟩
  | cons sp rest ih =>
    intro na us
    rw [List.foldl_cons]
    rcases associateOne_spec geq sp backends us with h | ⟨x, hx, hxb, h⟩
    · have hstep : assocStep geq false backends (na, us) sp =
          (na ++ [sp], us) := by
        rw [assocStep, h]
        rfl
      rw [hstep]
      obtain ⟨⟨s', hs', hfst⟩, hnd, hmem, hlen⟩ := ih (na ++ [sp]) us
      refine ⟨⟨sp :: s', List.Sublist.cons₂ sp hs', by
        rw [hfst, List.append_assoc]; rfl⟩, hnd, hmem, ?_⟩
      rw [hlen]
      simp [List.length_append, List.length_cons]
      omega
    · have hstep : assocStep geq false backends (na, us) sp =
          (na, us ++ [x]) := by
        rw [assocStep, h]
        rfl
      rw [hstep]
      obtain ⟨⟨s', hs', hfst⟩, hnd, hmem, hlen⟩ := ih na (us ++ [x])
      refine ⟨⟨s', List.Sublist.cons sp hs', hfst⟩, ?_, ?_, ?_⟩
      · intro hus
        refine hnd ?_
        simp [List.nodup_append, hus, List.disjoint_singleton]
        exact hx
      · intro y hy
        rcases hmem y hy with hy' | hy'
        · rcases List.mem_append.mp hy' with hy'' | hy''
          · exact Or.inl hy''
          · right
            rw [List.mem_singleton.mp hy'']
            exact hxb
        · exact Or.inr hy'
      · rw [hlen]
        simp [List.length_append, List.length_cons]
        omega

lemma assocFold_mem (geq : Plane K → Plane K → Bool) (dd : Bool)
    (backends : List (Plane K)) (sps : List (Plane K)) :
    ∀ (na : List (Plane K)) (us : List ℕ) (q : Plane K),
      q ∈ (sps.foldl (assocStep geq dd backends) (na, us)).1 →
        q ∈ na ∨ q ∈ sps := by
  induction sps with
  | nil => intro na us q hq; exact Or.inl (by simpa using hq)
  | cons sp rest ih =>
    intro na us q hq
    rw [List.foldl_cons] at hq
    by_cases hr : (associateOne geq dd us sp backends).1
    · have hstep : assocStep geq dd backends (na, us) sp =
          (na, (associateOne geq dd us sp backends).2) := by
        rw [assocStep, if_pos hr]
      rw [hstep] at hq
      rcases ih _ _ q hq with h | h
      · exact Or.inl h
      · exact Or.inr (List.mem_cons_of_mem sp h)
    · have hstep : assocStep geq dd backends (na, us) sp =
          (na ++ [sp], (associateOne geq dd us sp backends).2) := by
        rw [assocStep, if_neg hr]
      rw [hstep] at hq
      rcases ih _ _ q hq with h | h
      · rcases List.mem_append.mp h with h' | h'
        · exact Or.inl h'
        · exact Or.inr (by rw [List.mem_singleton.mp h']; exact
            List.mem_cons_self sp rest)
      · exact Or.inr (List.mem_cons_of_mem sp h)

/-- Every plane emitted as non-associated is one of the segmented planes,
unchanged (in particular with its freshly-assigned symbol preserved). -/
lemma associatePlanes_mem (geq : Plane K → Plane K → Bool) (dd : Bool)
    (segmented planes : List (Plane K)) (q : Plane K)
    (hq : q ∈ (associatePlanes geq dd segmented planes).1) : q ∈ segmented := by
  unfold associatePlanes at hq
  split_ifs at hq with h
  · exact hq
  · rcases assocFold_mem geq dd planes segmented [] [] q hq with h' | h'
    · exact absurd h' (List.not_mem_nil q)
    · exact h'

/-- C6 (confirmed).  Mesher::associatePlanes with do_double_association off:
the recorded backend indices contain no duplicate (each backend plane is
associated with at most one segmented plane; a later match against a used
backend plane keeps searching the remaining backend planes instead), every
recorded index belongs to a backend plane, the non-associated output is a
sublist of the segmented planes (each emitted unchanged, its freshly-assigned
symbol preserved, in order), and every segmented plane is accounted for
exactly once: it either records one backend association or is emitted as
non-associated. -/
theorem associatePlanes_single_association (geq : Plane K → Plane K → Bool)
    (segmented planes : List (Plane K)) :
    (associatePlanes geq false segmented planes).1.Sublist segmented ∧
    (associatePlanes geq false segmented planes).2.Nodup ∧
    (∀ x ∈ (associatePlanes geq false segmented planes).2,
      ∃ b ∈ planes, b.sym.2 = x) ∧
    (associatePlanes geq false segmented planes).1.length +
        (associatePlanes geq false segmented planes).2.length =
      segmented.length := by
  unfold associatePlanes
  split_ifs with h
  · exact ⟨List.Sublist.refl segmented, List.nodup_nil,
      fun x hx => absurd hx (List.not_mem_nil x), by simp⟩
  · obtain ⟨⟨s', hs', hfst⟩, hnd, hmem, hlen⟩ :=
      assocFold_spec geq planes segmented [] []
    refine ⟨?_, hnd List.nodup_nil, ?_, ?_⟩
    · rw [hfst]
      simpa using hs'
    · intro x hx
      rcases hmem x hx with h' | h'
      · exact absurd h' (List.not_mem_nil x)
      · exact h'
    · simpa using hlen

lemma lookup_map_overwrite (l : Int) (p : Point3 K) :
    ∀ vs : List (Int × Point3 K), (vs.lookup l).isSome →
      (vs.map (fun v => if v.1 = l then (l, p) else v)).lookup l = some p := by
  intro vs
  induction vs with
  | nil => intro h; simp at h
  | cons hd tl ih =>
    obtain ⟨k, v⟩ := hd
    intro h
    by_cases hk : k = l
    · simp only [List.map_cons, if_pos hk, List.lookup_cons, beq_self_eq_true]
    · have hbeq : (l == k) = false := by
        simp only [beq_eq_false_iff_ne, ne_eq]
        exact fun he => hk he.symm
      simp only [List.map_cons]
      rw [if_neg hk, List.lookup_cons]
      simp only [hbeq]
      apply ih
      rw [List.lookup_cons] at h
      simpa [hbeq] using h

lemma lookup_map_overwrite_ne (l l' : Int) (p : Point3 K) (hne : l' ≠ l) :
    ∀ vs : List (Int × Point3 K),
      (vs.map (fun v => if v.1 = l then (l, p) else v)).lookup l' =
        vs.lookup l' := by
  intro vs
  induction vs with
  | nil => simp
  | cons hd tl ih =>
    obtain ⟨k, v⟩ := hd
    by_cases hk : k = l
    · have hbeq : (l' == k) = false := by
        simp only [beq_eq_false_iff_ne, ne_eq]
        rw [hk]
        exact hne
      have hbeq' : (l' == l) = false := by
        simp only [beq_eq_false_iff_ne, ne_eq]
        exact hne
      simp only [List.map_cons]
      rw [if_pos hk, List.lookup_cons, List.lookup_cons]
      simp only [hbeq, hbeq']
      exact ih
    · simp only [List.map_cons]
      rw [if_neg hk, List.lookup_cons, List.lookup_cons]
      cases hbeq : l' == k
      · exact ih
      · rfl

lemma lookup_append_single (l : Int) (p : Point3 K) :
    ∀ vs : List (Int × Point3 K), vs.lookup l = none →
      (vs ++ [(l, p)]).lookup l = some p := by
  intro vs
  induction vs with
  | nil => simp [List.lookup_cons]
  | cons hd tl ih =>
    obtain ⟨k, v⟩ := hd
    intro h
    rw [List.lookup_cons] at h
    rw [List.cons_append, List.lookup_cons]
    cases hbeq : l == k
    · simp only [hbeq] at h
      exact ih h
    · simp only [hbeq] at h
      exact absurd h (by simp)

lemma lookup_append_single_ne (l l' : Int) (p : Point3 K) (hne : l' ≠ l) :
    ∀ vs : List (Int × Point3 K),
      (vs ++ [(l, p)]).lookup l' = vs.lookup l' := by
  intro vs
  induction vs with
  | nil =>
    have hbeq : (l' == l) = false := by
      simp only [beq_eq_false_iff_ne, ne_eq]
      exact hne
    simp [List.lookup_cons, hbeq]
  | cons hd tl ih =>
    obtain ⟨k, v⟩ := hd
    rw [List.cons_append, List.lookup_cons, List.lookup_cons]
    cases hbeq : l' == k
    · exact ih
    · rfl

lemma lookup_upsertVertex_self (vs : List (Int × Point3 K)) (l : Int)
    (p : Point3 K) : (upsertVertex vs l p).lookup l = some p := by
  unfold upsertVertex
  split_ifs with h
  · exact lookup_map_overwrite l p vs h
  · exact lookup_append_single l p vs (Option.not_isSome_iff_eq_none.mp h)

lemma lookup_upsertVertex_ne (vs : List (Int × Point3 K)) (l l' : Int)
    (p : Point3 K) (hne : l' ≠ l) :
    (upsertVertex vs l p).lookup l' = vs.lookup l' := by
  unfold upsertVertex
  split_ifs with h
  · exact lookup_map_overwrite_ne l l' p hne vs
  · exact lookup_append_single_ne l l' p hne vs

lemma lookup_upsertVertex_isSome (vs : List (Int × Point3 K)) (l l' : Int)
    (p : Point3 K) (h : (vs.lookup l').isSome) :
    ((upsertVertex vs l p).lookup l').isSome := by
  by_cases he : l' = l
  · rw [he, lookup_upsertVertex_self]
    rfl
  · rw [lookup_upsertVertex_ne vs l l' p he]
    exact h

/-- Every slot of the vertex table agrees with the landmark table. -/
def VertsConsistent (tbl : LmkMap K) (vs : List (Int × Point3 K)) : Prop :=
  ∀ l p, vs.lookup l = some p → tbl.lookup l = some p

/-- All three vertices of a polygon carry exactly the landmark table's
positions for their ids. -/
def PolyConsistent (tbl : LmkMap K) (pv : PolyVerts K) : Prop :=
  tbl.lookup pv.1.1 = some pv.1.2 ∧ tbl.lookup pv.2.1.1 = some pv.2.1.2 ∧
    tbl.lookup pv.2.2.1 = some pv.2.2.2

/-- Vertex data of a polygon as dictated by the landmark table alone
(independent of the mesh's slot store). -/
def tblPoly (tbl : LmkMap K) (ids : Int × Int × Int) : Option (PolyVerts K) :=
  match tbl.lookup ids.1, tbl.lookup ids.2.1, tbl.lookup ids.2.2 with
  | some p1, some p2, some p3 =>
    some ((ids.1, p1), (ids.2.1, p2), (ids.2.2, p3))
  | _, _, _ => none

/-- Invariant of the meshes produced by `updatePolygonMeshToTimeHorizon` with
`reduce_mesh_to_time_horizon` on: every slot agrees with the landmark table
and every stored polygon resolves (through the table) to vertex data that
passed the elongation-disabled filter. -/
def MeshInv (nrm : Point3 K → K) (elong : Point3 K → Point3 K → Point3 K → K)
    (tbl : LmkMap K) (mr ms : K) (m : Mesh3D K) : Prop :=
  VertsConsistent tbl m.verts ∧
  ∀ ids ∈ m.polys,
    ((m.verts.lookup ids.1).isSome ∧ (m.verts.lookup ids.2.1).isSome ∧
      (m.verts.lookup ids.2.2).isSome) ∧
    ∃ pv, tblPoly tbl ids = some pv ∧
      isBadTriangle nrm elong pv.1.2 pv.2.1.2 pv.2.2.2 mr (-1) ms = false

lemma upsertVertex_consistent (tbl : LmkMap K) (vs : List (Int × Point3 K))
    (l : Int) (p : Point3 K) (hc : VertsConsistent tbl vs)
    (hp : tbl.lookup l = some p) :
    VertsConsistent tbl (upsertVertex vs l p) := by
  intro l' p' h'
  by_cases he : l' = l
  · subst he
    rw [lookup_upsertVertex_self] at h'
    rw [← Option.some_inj.mp h']
    exact hp
  · rw [lookup_upsertVertex_ne vs l l' p he] at h'
    exact hc l' p' h'

lemma polyConsistent_tblPoly (tbl : LmkMap K) (pv : PolyVerts K)
    (h : PolyConsistent tbl pv) : tblPoly tbl (polyIds pv) = some pv := by
  obtain ⟨h1, h2, h3⟩ := h
  unfold tblPoly polyIds
  rw [h1, h2, h3]

lemma tblPoly_ids (tbl : LmkMap K) (ids : Int × Int × Int) (pv : PolyVerts K)
    (h : tblPoly tbl ids = some pv) : polyIds pv = ids ∧ PolyConsistent tbl pv := by
  unfold tblPoly at h
  rcases h1 : tbl.lookup ids.1 with _ | p1 <;> rw [h1] at h
  · simp at h
  · rcases h2 : tbl.lookup ids.2.1 with _ | p2 <;> rw [h2] at h
    · simp at h
    · rcases h3 : tbl.lookup ids.2.2 with _ | p3 <;> rw [h3] at h
      · simp at h
      · simp only [Option.some_inj] at h
        subst h
        exact ⟨rfl, h1, h2, h3⟩

lemma getTriVerts_of_consistent (tbl : LmkMap K) (m : Mesh3D K)
    (ids : Int × Int × Int) (hc : VertsConsistent tbl m.verts)
    (h1 : (m.verts.lookup ids.1).isSome) (h2 : (m.verts.lookup ids.2.1).isSome)
    (h3 : (m.verts.lookup ids.2.2).isSome) :
    getTriVerts m ids = tblPoly tbl ids := by
  obtain ⟨p1, hp1⟩ := Option.isSome_iff_exists.mp h1
  obtain ⟨p2, hp2⟩ := Option.isSome_iff_exists.mp h2
  obtain ⟨p3, hp3⟩ := Option.isSome_iff_exists.mp h3
  unfold getTriVerts tblPoly
  rw [hp1, hp2, hp3, hc _ _ hp1, hc _ _ hp2, hc _ _ hp3]

lemma meshInv_empty (nrm : Point3 K → K)
    (elong : Point3 K → Point3 K → Point3 K → K) (tbl : LmkMap K) (mr ms : K) :
    MeshInv nrm elong tbl mr ms emptyMesh := by
  refine ⟨fun l p h => ?_, fun ids h => ?_⟩
  · simp [emptyMesh] at h
  · simp [emptyMesh] at h

lemma meshInv_add (nrm : Point3 K → K)
    (elong : Point3 K → Point3 K → Point3 K → K) (tbl : LmkMap K) (mr ms : K)
    (m : Mesh3D K) (pv : PolyVerts K) (hinv : MeshInv nrm elong tbl mr ms m)
    (hpc : PolyConsistent tbl pv)
    (hbad : isBadTriangle nrm elong pv.1.2 pv.2.1.2 pv.2.2.2 mr (-1) ms = false) :
    MeshInv nrm elong tbl mr ms (addPolygonToMesh m pv) := by
  obtain ⟨hc, hpolys⟩ := hinv
  obtain ⟨hp1, hp2, hp3⟩ := hpc
  constructor
  · exact upsertVertex_consistent tbl _ _ _
      (upsertVertex_consistent tbl _ _ _
        (upsertVertex_consistent tbl _ _ _ hc hp1) hp2) hp3
  · intro ids hids
    rcases List.mem_append.mp hids with hold | hnew
    · obtain ⟨⟨q1, q2, q3⟩, hex⟩ := hpolys ids hold
      refine ⟨⟨?_, ?_, ?_⟩, hex⟩
      · exact lookup_upsertVertex_isSome _ _ _ _
          (lookup_upsertVertex_isSome _ _ _ _
            (lookup_upsertVertex_isSome _ _ _ _ q1))
      · exact lookup_upsertVertex_isSome _ _ _ _
          (lookup_upsertVertex_isSome _ _ _ _
            (lookup_upsertVertex_isSome _ _ _ _ q2))
      · exact lookup_upsertVertex_isSome _ _ _ _
          (lookup_upsertVertex_isSome _ _ _ _
            (lookup_upsertVertex_isSome _ _ _ _ q3))
    · rw [List.mem_singleton.mp hnew]
      simp only [polyIds]
      refine ⟨⟨?_, ?_, ?_⟩, pv, polyConsistent_tblPoly tbl pv ⟨hp1, hp2, hp3⟩,
        hbad⟩
      · exact lookup_upsertVertex_isSome _ _ _ _
          (lookup_upsertVertex_isSome _ _ _ _
            (by rw [lookup_upsertVertex_self]; rfl))
      · exact lookup_upsertVertex_isSome _ _ _ _
          (by rw [lookup_upsertVertex_self]; rfl)
      · simp only [addPolygonToMesh]
        rw [lookup_upsertVertex_self]
        rfl

lemma refreshVert_of_lookup (tbl : LmkMap K) (v : Int × Point3 K)
    (p : Point3 K) (h : tbl.lookup v.1 = some p) :
    refreshVert tbl v = (v.1, p) := by
  unfold refreshVert
  rw [h]

lemma refreshPoly_consistent (tbl : LmkMap K) (pv pv' : PolyVerts K)
    (h : refreshPoly tbl true pv = some pv') : PolyConsistent tbl pv' := by
  unfold refreshPoly at h
  split_ifs at h with hcond
  have h1 : ¬(tbl.lookup pv.1.1).isNone := fun hn => hcond ⟨rfl, Or.inl hn⟩
  have h2 : ¬(tbl.lookup pv.2.1.1).isNone := fun hn =>
    hcond ⟨rfl, Or.inr (Or.inl hn)⟩
  have h3 : ¬(tbl.lookup pv.2.2.1).isNone := fun hn =>
    hcond ⟨rfl, Or.inr (Or.inr hn)⟩
  rcases hp1 : tbl.lookup pv.1.1 with - | p1
  · exact absurd (by rw [hp1]; rfl) h1
  rcases hp2 : tbl.lookup pv.2.1.1 with - | p2
  · exact absurd (by rw [hp2]; rfl) h2
  rcases hp3 : tbl.lookup pv.2.2.1 with - | p3
  · exact absurd (by rw [hp3]; rfl) h3
  rw [refreshVert_of_lookup tbl _ _ hp1, refreshVert_of_lookup tbl _ _ hp2,
    refreshVert_of_lookup tbl _ _ hp3, Option.some_inj] at h
  subst h
  exact ⟨hp1, hp2, hp3⟩

lemma refreshPoly_id (tbl : LmkMap K) (pv : PolyVerts K)
    (h : PolyConsistent tbl pv) : refreshPoly tbl true pv = some pv := by
  obtain ⟨h1, h2, h3⟩ := h
  unfold refreshPoly
  rw [if_neg]
  · rw [refreshVert_of_lookup tbl _ _ h1, refreshVert_of_lookup tbl _ _ h2,
      refreshVert_of_lookup tbl _ _ h3]
  · rintro ⟨-, hn | hn | hn⟩
    · rw [h1] at hn
      exact absurd hn (by simp)
    · rw [h2] at hn
      exact absurd hn (by simp)
    · rw [h3] at hn
      exact absurd hn (by simp)

lemma foldUpd_inv (nrm : Point3 K → K)
    (elong : Point3 K → Point3 K → Point3 K → K) (tbl : LmkMap K) (mr ms : K) :
    ∀ (L : List (PolyVerts K)) (acc : Mesh3D K),
      MeshInv nrm elong tbl mr ms acc →
      MeshInv nrm elong tbl mr ms
        (L.foldl (updStep nrm elong tbl mr ms true) acc) := by
  intro L
  induction L with
  | nil => intro acc h; exact h
  | cons pv rest ih =>
    intro acc hacc
    rw [List.foldl_cons]
    apply ih
    unfold updStep
    rcases hres : refreshPoly tbl true pv with - | pv'
    · exact hacc
    · dsimp only
      split_ifs with hbad
      · exact hacc
      · exact meshInv_add nrm elong tbl mr ms acc pv' hacc
          (refreshPoly_consistent tbl pv pv' hres)
          (by simpa using hbad)

lemma foldAdd_polys :
    ∀ (L : List (PolyVerts K)) (m : Mesh3D K),
      (L.foldl addPolygonToMesh m).polys = m.polys ++ L.map polyIds := by
  intro L
  induction L with
  | nil => intro m; simp
  | cons pv rest ih =>
    intro m
    rw [List.foldl_cons, ih, List.map_cons]
    show (m.polys ++ [polyIds pv]) ++ rest.map polyIds =
      m.polys ++ polyIds pv :: rest.map polyIds
    rw [List.append_assoc]
    rfl

lemma foldAdd_inv (nrm : Point3 K → K)
    (elong : Point3 K → Point3 K → Point3 K → K) (tbl : LmkMap K) (mr ms : K) :
    ∀ (L : List (PolyVerts K)),
      (∀ pv ∈ L, PolyConsistent tbl pv ∧
        isBadTriangle nrm elong pv.1.2 pv.2.1.2 pv.2.2.2 mr (-1) ms = false) →
      ∀ (m : Mesh3D K), MeshInv nrm elong tbl mr ms m →
        MeshInv nrm elong tbl mr ms (L.foldl addPolygonToMesh m) := by
  intro L
  induction L with
  | nil => intro _ m hm; exact hm
  | cons pv rest ih =>
    intro hL m hm
    rw [List.foldl_cons]
    refine ih (fun q hq => hL q (List.mem_cons_of_mem pv hq)) _ ?_
    obtain ⟨hpc, hbad⟩ := hL pv (List.mem_cons_self pv rest)
    exact meshInv_add nrm elong tbl mr ms m pv hm hpc hbad

/-- Triangles of the 2-d mesh that resolve fully through the frame and the
landmark table and pass the full `isBadTriangle` filter: exactly the polygons
that one `populate3dMesh` call appends to the mesh. -/
def goodCandidates (nrm : Point3 K → K)
    (elong : Point3 K → Point3 K → Point3 K → K) (frame : Pixel K → Int)
    (tbl : LmkMap K) (mr me ms : K) (mesh_2d : List (Tri2D K)) :
    List (PolyVerts K) :=
  mesh_2d.filterMap (fun t =>
    match resolveTri frame tbl t with
    | some (some pv) =>
      if isBadTriangle nrm elong pv.1.2 pv.2.1.2 pv.2.2.2 mr me ms then none
      else some pv
    | _ => none)

lemma popFold_none (nrm : Point3 K → K)
    (elong : Point3 K → Point3 K → Point3 K → K) (frame : Pixel K → Int)
    (tbl : LmkMap K) (mr me ms : K) :
    ∀ ts : List (Tri2D K),
      ts.foldl (popStep nrm elong frame tbl mr me ms) none = none := by
  intro ts
  induction ts with
  | nil => rfl
  | cons t rest ih =>
    rw [List.foldl_cons]
    exact ih

lemma populate_eq (nrm : Point3 K → K)
    (elong : Point3 K → Point3 K → Point3 K → K) (frame : Pixel K → Int)
    (tbl : LmkMap K) (mr me ms : K) :
    ∀ (mesh_2d : List (Tri2D K)) (m m' : Mesh3D K),
      populate3dMesh nrm elong frame tbl mr me ms mesh_2d m = some m' →
      m' = (goodCandidates nrm elong frame tbl mr me ms mesh_2d).foldl
        addPolygonToMesh m := by
  intro mesh_2d
  induction mesh_2d with
  | nil =>
    intro m m' h
    simp only [populate3dMesh, List.foldl_nil, Option.some_inj] at h
    simp [goodCandidates, h]
  | cons t ts ih =>
    intro m m' h
    rw [populate3dMesh, List.foldl_cons] at h
    rcases hres : resolveTri frame tbl t with - | r
    · rw [show popStep nrm elong frame tbl mr me ms (some m) t = none from by
        simp [popStep, hres]] at h
      rw [popFold_none] at h
      exact absurd h (by simp)
    · rcases r with - | pv
      · rw [show popStep nrm elong frame tbl mr me ms (some m) t = some m from
          by simp [popStep, hres]] at h
        have := ih m m' h
        rw [show goodCandidates nrm elong frame tbl mr me ms (t :: ts) =
          goodCandidates nrm elong frame tbl mr me ms ts from by
            simp [goodCandidates, List.filterMap_cons, hres]]
        exact this
      · by_cases hbad :
          isBadTriangle nrm elong pv.1.2 pv.2.1.2 pv.2.2.2 mr me ms
        · rw [show popStep nrm elong frame tbl mr me ms (some m) t = some m from
            by simp [popStep, hres, hbad]] at h
          have := ih m m' h
          rw [show goodCandidates nrm elong frame tbl mr me ms (t :: ts) =
            goodCandidates nrm elong frame tbl mr me ms ts from by
              simp [goodCandidates, List.filterMap_cons, hres, hbad]]
          exact this
        · rw [show popStep nrm elong frame tbl mr me ms (some m) t =
            some (addPolygonToMesh m pv) from by
              simp [popStep, hres, hbad]] at h
          have := ih (addPolygonToMesh m pv) m' h
          rw [show goodCandidates nrm elong frame tbl mr me ms (t :: ts) =
            pv :: goodCandidates nrm elong frame tbl mr me ms ts from by
              simp [goodCandidates, List.filterMap_cons, hres, hbad]]
          rw [List.foldl_cons]
          exact this

lemma resolveTri_consistent (frame : Pixel K → Int) (tbl : LmkMap K)
    (t : Tri2D K) (pv : PolyVerts K)
    (h : resolveTri frame tbl t = some (some pv)) : PolyConsistent tbl pv := by
  simp only [resolveTri] at h
  by_cases hl1 : frame t.1 = -1
  · rw [if_pos hl1] at h
    exact absurd h (by simp)
  rw [if_neg hl1] at h
  rcases hq1 : tbl.lookup (frame t.1) with - | p1 <;> rw [hq1] at h
  · exact absurd h (by simp)
  dsimp only at h
  by_cases hl2 : frame t.2.1 = -1
  · rw [if_pos hl2] at h
    exact absurd h (by simp)
  rw [if_neg hl2] at h
  rcases hq2 : tbl.lookup (frame t.2.1) with - | p2 <;> rw [hq2] at h
  · exact absurd h (by simp)
  dsimp only at h
  by_cases hl3 : frame t.2.2 = -1
  · rw [if_pos hl3] at h
    exact absurd h (by simp)
  rw [if_neg hl3] at h
  rcases hq3 : tbl.lookup (frame t.2.2) with - | p3 <;> rw [hq3] at h
  · exact absurd h (by simp)
  dsimp only at h
  simp only [Option.some_inj] at h
  subst h
  exact ⟨hq1, hq2, hq3⟩

lemma goodCandidates_good (nrm : Point3 K → K)
    (elong : Point3 K → Point3 K → Point3 K → K) (frame : Pixel K → Int)
    (tbl : LmkMap K) (mr me ms : K) (mesh_2d : List (Tri2D K)) :
    ∀ pv ∈ goodCandidates nrm elong frame tbl mr me ms mesh_2d,
      PolyConsistent tbl pv ∧
        isBadTriangle nrm elong pv.1.2 pv.2.1.2 pv.2.2.2 mr me ms = false := by
  intro pv hpv
  obtain ⟨t, _, hf⟩ := List.mem_filterMap.mp hpv
  rcases hres : resolveTri frame tbl t with - | r <;> rw [hres] at hf
  · simp at hf
  · rcases r with - | pv'
    · simp at hf
    · dsimp only at hf
      by_cases hbad :
        isBadTriangle nrm elong pv'.1.2 pv'.2.1.2 pv'.2.2.2 mr me ms
      · rw [if_pos hbad] at hf
        simp at hf
      · rw [if_neg hbad] at hf
        simp only [Option.some_inj] at hf
        subst hf
        exact ⟨resolveTri_consistent frame tbl t pv' hres,
          Bool.not_eq_true _ ▸ hbad⟩

lemma update_inv (nrm : Point3 K → K)
    (elong : Point3 K → Point3 K → Point3 K → K) (tbl : LmkMap K) (mr ms : K)
    (m : Mesh3D K) :
    MeshInv nrm elong tbl mr ms
      (updatePolygonMeshToTimeHorizon nrm elong tbl mr ms true m) :=
  foldUpd_inv nrm elong tbl mr ms _ emptyMesh (meshInv_empty nrm elong tbl mr ms)

lemma updFold_polys (nrm : Point3 K → K)
    (elong : Point3 K → Point3 K → Point3 K → K) (tbl : LmkMap K) (mr ms : K)
    (m : Mesh3D K) :
    ∀ (L : List (Int × Int × Int)),
      (∀ ids ∈ L, ∃ pv, getTriVerts m ids = some pv ∧
        refreshPoly tbl true pv = some pv ∧
        isBadTriangle nrm elong pv.1.2 pv.2.1.2 pv.2.2.2 mr (-1) ms = false ∧
        polyIds pv = ids) →
      ∀ acc : Mesh3D K,
        ((L.filterMap (getTriVerts m)).foldl
            (updStep nrm elong tbl mr ms true) acc).polys =
          acc.polys ++ L := by
  intro L
  induction L with
  | nil => intro _ acc; simp
  | cons ids rest ih =>
    intro hL acc
    obtain ⟨pv, hg, hr, hb, hid⟩ := hL ids (List.mem_cons_self ids rest)
    rw [List.filterMap_cons, hg, List.foldl_cons]
    have hstep : updStep nrm elong tbl mr ms true acc pv =
        addPolygonToMesh acc pv := by
      unfold updStep
      rw [hr]
      dsimp only
      rw [if_neg]
      rw [hb]
      simp
    rw [hstep, ih (fun q hq => hL q (List.mem_cons_of_mem ids hq))]
    show (acc.polys ++ [polyIds pv]) ++ rest = acc.polys ++ ids :: rest
    rw [hid, List.append_assoc]
    rfl

lemma meshInv_poly_data (nrm : Point3 K → K)
    (elong : Point3 K → Point3 K → Point3 K → K) (tbl : LmkMap K) (mr ms : K)
    (m : Mesh3D K) (hinv : MeshInv nrm elong tbl mr ms m) :
    ∀ ids ∈ m.polys, ∃ pv, getTriVerts m ids = some pv ∧
      refreshPoly tbl true pv = some pv ∧
      isBadTriangle nrm elong pv.1.2 pv.2.1.2 pv.2.2.2 mr (-1) ms = false ∧
      polyIds pv = ids := by
  intro ids hids
  obtain ⟨⟨q1, q2, q3⟩, pv, hpv, hbad⟩ := hinv.2 ids hids
  obtain ⟨hid, hpc⟩ := tblPoly_ids tbl ids pv hpv
  refine ⟨pv, ?_, refreshPoly_id tbl pv hpc, hbad, hid⟩
  rw [getTriVerts_of_consistent tbl m ids hinv.1 q1 q2 q3, hpv]

lemma update_polys_of_inv (nrm : Point3 K → K)
    (elong : Point3 K → Point3 K → Point3 K → K) (tbl : LmkMap K) (mr ms : K)
    (m : Mesh3D K) (hinv : MeshInv nrm elong tbl mr ms m) :
    (updatePolygonMeshToTimeHorizon nrm elong tbl mr ms true m).polys =
      m.polys := by
  unfold updatePolygonMeshToTimeHorizon
  rw [updFold_polys nrm elong tbl mr ms m m.polys
    (meshInv_poly_data nrm elong tbl mr ms m hinv) emptyMesh]
  rfl

lemma meshInv_getPolygon (nrm : Point3 K → K)
    (elong : Point3 K → Point3 K → Point3 K → K) (tbl : LmkMap K) (mr ms : K)
    (m : Mesh3D K) (hinv : MeshInv nrm elong tbl mr ms m) (i : ℕ)
    (verts : List (Int × Point3 K)) (h : getPolygon m i = some verts) :
    verts.length = 3 ∧ ∀ v ∈ verts, tbl.lookup v.1 = some v.2 := by
  unfold getPolygon at h
  rcases hpi : m.polys.get? i with - | ids <;> rw [hpi] at h
  · simp at h
  · have hids : ids ∈ m.polys := List.get?_mem hpi
    obtain ⟨⟨q1, q2, q3⟩, pv, hpv, -⟩ := hinv.2 ids hids
    obtain ⟨-, hpc⟩ := tblPoly_ids tbl ids pv hpv
    dsimp only at h
    rw [getTriVerts_of_consistent tbl m ids hinv.1 q1 q2 q3, hpv] at h
    simp only [Option.map_some', Option.some_inj] at h
    subst h
    refine ⟨rfl, ?_⟩
    intro v hv
    rcases List.mem_cons.mp hv with hv | hv
    · rw [hv]
      exact hpc.1
    rcases List.mem_cons.mp hv with hv | hv
    · rw [hv]
      exact hpc.2.1
    rcases List.mem_cons.mp hv with hv | hv
    · rw [hv]
      exact hpc.2.2
    · exact absurd hv (List.not_mem_nil v)

/-- C2 (confirmed).  After the per-frame mesh update with
`reduce_mesh_to_time_horizon` on, every polygon retrievable from the mesh has
exactly 3 vertices, each vertex's landmark id is a key of the landmark table
used for the call, and each vertex's stored position is exactly the position
the table maps that id to. -/
theorem populate3dMeshTimeHorizon_positions_from_table (nrm : Point3 K → K)
    (elong : Point3 K → Point3 K → Point3 K → K) (frame : Pixel K → Int)
    (tbl : LmkMap K) (mr me ms : K) (mesh_2d : List (Tri2D K))
    (m0 m' : Mesh3D K)
    (hrun : populate3dMeshTimeHorizon nrm elong frame tbl mr me ms true
      mesh_2d m0 = some m') :
    ∀ (i : ℕ) (verts : List (Int × Point3 K)), getPolygon m' i = some verts →
      verts.length = 3 ∧ ∀ v ∈ verts, tbl.lookup v.1 = some v.2 := by
  intro i verts h
  obtain ⟨m1, -, hm'⟩ := Option.map_eq_some'.mp hrun
  exact meshInv_getPolygon nrm elong tbl mr ms m' (hm' ▸
    update_inv nrm elong tbl mr ms m1) i verts h

/-- C3 (corrected, amended form).  Calling the mesh update twice in a row
with identical inputs does not leave the mesh unchanged: because
`populate3dMesh` appends to the existing mesh without de-duplication, the
mesh after the second call consists of the polygons already present after the
first call followed by one more copy of every triangle of the 2-d mesh that
resolves and passes the filters.  The two calls agree exactly when that
candidate list is empty. -/
theorem updateMesh_twice_appends (nrm : Point3 K → K)
    (elong : Point3 K → Point3 K → Point3 K → K) (frame : Pixel K → Int)
    (tbl : LmkMap K) (mr me ms : K) (mesh_2d : List (Tri2D K))
    (m0 m1 m2 : Mesh3D K)
    (h1 : populate3dMeshTimeHorizon nrm elong frame tbl mr me ms true mesh_2d
      m0 = some m1)
    (h2 : populate3dMeshTimeHorizon nrm elong frame tbl mr me ms true mesh_2d
      m1 = some m2) :
    m2.polys = m1.polys ++
      (goodCandidates nrm elong frame tbl mr me ms mesh_2d).map polyIds := by
  obtain ⟨mp0, -, hm1⟩ := Option.map_eq_some'.mp h1
  obtain ⟨mp1, hpop1, hm2⟩ := Option.map_eq_some'.mp h2
  have hinv1 : MeshInv nrm elong tbl mr ms m1 :=
    hm1 ▸ update_inv nrm elong tbl mr ms mp0
  have hmp1 : mp1 = (goodCandidates nrm elong frame tbl mr me ms
      mesh_2d).foldl addPolygonToMesh m1 :=
    populate_eq nrm elong frame tbl mr me ms mesh_2d m1 mp1 hpop1
  have hgood : ∀ pv ∈ goodCandidates nrm elong frame tbl mr me ms mesh_2d,
      PolyConsistent tbl pv ∧
        isBadTriangle nrm elong pv.1.2 pv.2.1.2 pv.2.2.2 mr (-1) ms = false := by
    intro pv hpv
    obtain ⟨hpc, hbad⟩ :=
      goodCandidates_good nrm elong frame tbl mr me ms mesh_2d pv hpv
    exact ⟨hpc, isBadTriangle_elong_disabled nrm elong _ _ _ mr me ms hbad⟩
  have hinvmp1 : MeshInv nrm elong tbl mr ms mp1 := by
    rw [hmp1]
    exact foldAdd_inv nrm elong tbl mr ms _ hgood m1 hinv1
  calc m2.polys
      = mp1.polys := by
        rw [← hm2, update_polys_of_inv nrm elong tbl mr ms mp1 hinvmp1]
    _ = m1.polys ++ (goodCandidates nrm elong frame tbl mr me ms
          mesh_2d).map polyIds := by
        rw [hmp1, foldAdd_polys]

/-- Concrete stand-in for `cv::norm` in the executable counterexamples: the
triangle used there is degenerate (all vertices at the origin), where the
Euclidean norm of every side is exactly 0. -/
def cNrm : Point3 ℚ → ℚ := fun _ => 0

/-- Concrete stand-in for the external tangential/radial elongation helper;
its value is irrelevant because the counterexamples disable the elongation
check (threshold 0). -/
def cElong : Point3 ℚ → Point3 ℚ → Point3 ℚ → ℚ := fun _ _ _ => 0

/-- Concrete `Frame::findLmkIdFromPixel`: the three tracked pixels map to
landmarks 1, 2 and 3. -/
def cFrame : Pixel ℚ → Int := fun px =>
  if px = (0, 0) then 1 else if px = (1, 0) then 2 else
  if px = (0, 1) then 3 else -1

/-- Concrete landmark table: three landmarks, all at the origin. -/
def cTbl : LmkMap ℚ := [(1, (0, 0, 0)), (2, (0, 0, 0)), (3, (0, 0, 0))]

/-- Concrete 2-d triangulation: a single triangle over the three pixels. -/
def cMesh2d : List (Tri2D ℚ) := [((0, 0), (1, 0), (0, 1))]

/-- Mesh state after one update call on the empty mesh with the concrete
inputs: one polygon. -/
def cM1 : Mesh3D ℚ :=
  ⟨[(1, (0, 0, 0)), (2, (0, 0, 0)), (3, (0, 0, 0))], [(1, 2, 3)]⟩

/-- Mesh state after a second identical update call: the polygon is
duplicated. -/
def cM2 : Mesh3D ℚ :=
  ⟨[(1, (0, 0, 0)), (2, (0, 0, 0)), (3, (0, 0, 0))], [(1, 2, 3), (1, 2, 3)]⟩

/-- C3 counterexample.  Two identical mesh-update calls (same 2-d mesh, same
landmark table, same thresholds, reduce-to-time-horizon on) do NOT yield
identical mesh content: the second call appends a duplicate of the surviving
triangle, so the mesh differs from the one after the first call. -/
theorem updateMesh_twice_counterexample :
    (populate3dMeshTimeHorizon cNrm cElong cFrame cTbl 0 0 0 true cMesh2d
        emptyMesh).bind
      (populate3dMeshTimeHorizon cNrm cElong cFrame cTbl 0 0 0 true cMesh2d) ≠
      populate3dMeshTimeHorizon cNrm cElong cFrame cTbl 0 0 0 true cMesh2d
        emptyMesh := by
  decide

/-- C3 witness: the amended duplication law evaluated on the concrete
two-call run. -/
theorem updateMesh_twice_appends_witness :
    (populate3dMeshTimeHorizon cNrm cElong cFrame cTbl 0 0 0 true cMesh2d
        emptyMesh = some cM1) ∧
    (populate3dMeshTimeHorizon cNrm cElong cFrame cTbl 0 0 0 true cMesh2d
        cM1 = some cM2) ∧
    cM2.polys = cM1.polys ++
      (goodCandidates cNrm cElong cFrame cTbl 0 0 0 cMesh2d).map polyIds :=
  ⟨by decide, by decide,
    updateMesh_twice_appends cNrm cElong cFrame cTbl 0 0 0 cMesh2d emptyMesh
      cM1 cM2 (by decide) (by decide)⟩

/-- Vertex list of the single polygon of `cM1`, as `getPolygon` returns it. -/
def cVerts : List (Int × Point3 ℚ) :=
  [(1, (0, 0, 0)), (2, (0, 0, 0)), (3, (0, 0, 0))]

/-- C2 witness: the position-consistency theorem evaluated on the concrete
run (one call on the empty mesh, then retrieving polygon 0). -/
theorem populate3dMeshTimeHorizon_positions_witness :
    (populate3dMeshTimeHorizon cNrm cElong cFrame cTbl 0 0 0 true cMesh2d
        emptyMesh = some cM1) ∧
    (getPolygon cM1 0 = some cVerts) ∧
    (cVerts.length = 3 ∧ ∀ v ∈ cVerts, cTbl.lookup v.1 = some v.2) :=
  ⟨by decide, by decide,
    populate3dMeshTimeHorizon_positions_from_table cNrm cElong cFrame cTbl
      0 0 0 cMesh2d emptyMesh cM1 (by decide) 0 cVerts (by decide)⟩

/-- A plane's recorded triangle ids all point at retrievable polygons whose
three vertices lie within the clustering distance tolerance of the plane. -/
def PlaneClustered (distance_tolerance : K) (m : Mesh3D K) (p : Plane K) :
    Prop :=
  ∀ i ∈ p.triangle_ids, ∃ pv, getTriVertsAt m i = some pv ∧
    isPolygonAtDistanceFromPlane pv p.distance p.normal distance_tolerance =
      true

lemma clusterFold_mem (stereoFlag : Bool) (vio : LmkMap K) (pv : PolyVerts K)
    (i : ℕ) (n : Point3 K) (tolN tolD : K) :
    ∀ (planes : List (Plane K)) (acc : List (Plane K) × Bool)
      (q : Plane K),
      q ∈ (planes.foldl (clusterStep stereoFlag vio pv i n tolN tolD) acc).1 →
      q ∈ acc.1 ∨ ∃ q0 ∈ planes, q = q0 ∨
        (q.normal = q0.normal ∧ q.distance = q0.distance ∧
          q.triangle_ids = q0.triangle_ids ++ [i] ∧
          isPolygonAtDistanceFromPlane pv q0.distance q0.normal tolD = true) := by
  intro planes
  induction planes with
  | nil => intro acc q hq; exact Or.inl hq
  | cons pl rest ih =>
    intro acc q hq
    rw [List.foldl_cons] at hq
    by_cases hcond : (isNormalAroundAxis pl.normal n tolN &&
      isPolygonAtDistanceFromPlane pv pl.distance pl.normal tolD) = true
    · have hstep : clusterStep stereoFlag vio pv i n tolN tolD acc pl =
          (acc.1 ++ [{ pl with
            lmk_ids := appendLmkIdsOfPolygon stereoFlag vio pv pl.lmk_ids,
            triangle_ids := pl.triangle_ids ++ [i] }], true) := by
        rw [clusterStep, if_pos hcond]
      rw [hstep] at hq
      rcases ih _ q hq with h | ⟨q0, hq0, hcase⟩
      · rcases List.mem_append.mp h with h' | h'
        · exact Or.inl h'
        · right
          refine ⟨pl, List.mem_cons_self pl rest, Or.inr ?_⟩
          rw [List.mem_singleton.mp h']
          exact ⟨rfl, rfl, rfl, (Bool.and_eq_true _ _ ▸ hcond).2⟩
      · exact Or.inr ⟨q0, List.mem_cons_of_mem pl hq0, hcase⟩
    · have hstep : clusterStep stereoFlag vio pv i n tolN tolD acc pl =
          (acc.1 ++ [pl], acc.2) := by
        rw [clusterStep, if_neg hcond]
      rw [hstep] at hq
      rcases ih _ q hq with h | ⟨q0, hq0, hcase⟩
      · rcases List.mem_append.mp h with h' | h'
        · exact Or.inl h'
        · right
          exact ⟨pl, List.mem_cons_self pl rest,
            Or.inl (List.mem_singleton.mp h')⟩
      · exact Or.inr ⟨q0, List.mem_cons_of_mem pl hq0, hcase⟩

lemma clustered_preserved_poly (stereoFlag : Bool) (vio : LmkMap K)
    (m : Mesh3D K) (pv : PolyVerts K) (i : ℕ) (n : Point3 K) (tolN tolD : K)
    (hpv : getTriVertsAt m i = some pv) (planes : List (Plane K))
    (hall : ∀ q ∈ planes, PlaneClustered tolD m q) :
    ∀ q ∈ (updatePlanesLmkIdsFromPolygon stereoFlag vio planes pv i n tolN
      tolD).1, PlaneClustered tolD m q := by
  intro q hq
  rcases clusterFold_mem stereoFlag vio pv i n tolN tolD planes ([], false) q
      hq with h | ⟨q0, hq0, hcase⟩
  · exact absurd h (List.not_mem_nil q)
  · rcases hcase with hqe | ⟨hn, hd, hids, hpred⟩
    · rw [hqe]
      exact hall q0 hq0
    · intro j hj
      rw [hids] at hj
      rcases List.mem_append.mp hj with hj' | hj'
      · obtain ⟨pv', hpv', hpred'⟩ := hall q0 hq0 j hj'
        refine ⟨pv', hpv', ?_⟩
        rw [hn, hd]
        exact hpred'
      · rw [List.mem_singleton.mp hj']
        refine ⟨pv, hpv, ?_⟩
        rw [hn, hd]
        exact hpred

lemma walkPolys_preserves {α : Type} (m : Mesh3D K)
    (step : α → ℕ → PolyVerts K → α) (P : α → Prop)
    (hstep : ∀ st i pv, P st → getTriVertsAt m i = some pv →
      P (step st i pv)) :
    ∀ (rest : List (Int × Int × Int)) (i : ℕ), rest = m.polys.drop i →
      ∀ st, P st → P (walkPolys m step i rest st) := by
  intro rest
  induction rest with
  | nil => intro i _ st hst; exact hst
  | cons ids rest' ih =>
    intro i hdrop st hst
    have hget : m.polys.get? i = some ids := by
      have h0 := List.getElem?_drop m.polys i 0
      rw [← hdrop] at h0
      simp only [Nat.add_zero, List.getElem?_cons_zero] at h0
      rw [List.get?_eq_getElem?]
      exact h0.symm
    have hrest : rest' = m.polys.drop (i + 1) := by
      have h1 := List.drop_drop 1 i m.polys
      rw [← hdrop] at h1
      simpa using h1
    rw [walkPolys]
    rcases hres : getTriVerts m ids with - | pv
    · exact ih (i + 1) hrest st hst
    · refine ih (i + 1) hrest (step st i pv) (hstep st i pv hst ?_)
      unfold getTriVertsAt
      rw [hget]
      exact hres

lemma segmentStep_clustered (stereoFlag : Bool) (vio : LmkMap K)
    (calcN : Point3 K → Point3 K → Point3 K → Option (Point3 K))
    (longO : Point3 K → K) (piv : K) (onlyNC : Bool)
    (tolN tolD tolH tolW : K) (m : Mesh3D K)
    (st : List (Plane K) × List K × List (K × K)) (i : ℕ) (pv : PolyVerts K)
    (hst : ∀ q ∈ st.1, PlaneClustered tolD m q)
    (hpv : getTriVertsAt m i = some pv) :
    ∀ q ∈ (segmentStep stereoFlag vio calcN longO piv onlyNC tolN tolD tolH
      tolW st i pv).1, PlaneClustered tolD m q := by
  unfold segmentStep
  rcases calcN pv.1.2 pv.2.1.2 pv.2.2.2 with - | n
  · exact hst
  · exact clustered_preserved_poly stereoFlag vio m pv i n tolN tolD hpv st.1
      hst

lemma segmentPlanesInMesh_clustered (stereoFlag : Bool) (vio : LmkMap K)
    (calcN : Point3 K → Point3 K → Point3 K → Option (Point3 K))
    (longO : Point3 K → K) (piv : K) (onlyNC : Bool)
    (tolN tolD tolH tolW : K) (seeds : List (Plane K)) (m : Mesh3D K) :
    ∀ q ∈ (segmentPlanesInMesh stereoFlag vio calcN longO piv onlyNC tolN
      tolD tolH tolW seeds m).1, PlaneClustered tolD m q := by
  unfold segmentPlanesInMesh
  refine walkPolys_preserves m _ (fun st => ∀ q ∈ st.1, PlaneClustered tolD m q)
    (fun st i pv hst hpv =>
      segmentStep_clustered stereoFlag vio calcN longO piv onlyNC tolN tolD
        tolH tolW m st i pv hst hpv)
    m.polys 0 (by rw [List.drop_zero]) _ ?_
  intro q hq
  obtain ⟨q0, -, hq0⟩ := List.mem_map.mp hq
  intro j hj
  rw [← hq0] at hj
  exact absurd hj (by simp [clearPlane])

lemma updatePlanesLmkIdsFromMesh_clustered (stereoFlag : Bool)
    (vio : LmkMap K)
    (calcN : Point3 K → Point3 K → Point3 K → Option (Point3 K))
    (tolN tolD : K) (planes : List (Plane K)) (m : Mesh3D K)
    (hall : ∀ q ∈ planes, PlaneClustered tolD m q) :
    ∀ q ∈ updatePlanesLmkIdsFromMesh stereoFlag vio calcN tolN tolD planes m,
      PlaneClustered tolD m q := by
  unfold updatePlanesLmkIdsFromMesh
  refine walkPolys_preserves m _ (fun ps => ∀ q ∈ ps, PlaneClustered tolD m q)
    ?_ m.polys 0 (by rw [List.drop_zero]) planes hall
  intro ps i pv hst hpv
  rcases calcN pv.1.2 pv.2.1.2 pv.2.2.2 with - | n
  · exact hst
  · exact clustered_preserved_poly stereoFlag vio m pv i n tolN tolD hpv ps
      hst

lemma segmentNewPlanes_triangle_ids (min_separation : K) (max_peaks : ℕ)
    (cosO sinO : K → K) (zPeaks : List (PeakInfo K))
    (wallPeaks : List (PeakInfo2D K)) (id0 : ℕ) :
    ∀ q ∈ (segmentNewPlanes min_separation max_peaks cosO sinO zPeaks
      wallPeaks id0).1, q.triangle_ids = [] := by
  intro q hq
  unfold segmentNewPlanes segmentHorizontalPlanes segmentWalls at hq
  dsimp only at hq
  rcases List.mem_append.mp hq with h | h
  · rcases pushFold_mem_triangle_ids (horizPush (K := K) vertical3)
      (fun c pk => ⟨('P', c), vertical3, pk.value, [], 2, []⟩)
      (fun _ _ => rfl) (fun _ _ => rfl) _ [] id0 q h with h' | h'
    · exact absurd h' (List.not_mem_nil q)
    · exact h'
  · rcases pushFold_mem_triangle_ids (wallPush cosO sinO)
      (fun c pk => ⟨('P', c), (cosO pk.x_value, sinO pk.x_value, 0),
        pk.y_value, [], 1, []⟩)
      (fun _ _ => rfl) (fun _ _ => rfl) _ [] _ q h with h' | h'
    · exact absurd h' (List.not_mem_nil q)
    · exact h'

lemma planeClustered_conclusion (tolD : K) (m : Mesh3D K) (p : Plane K)
    (h : PlaneClustered tolD m p) :
    ∀ i ∈ p.triangle_ids, ∃ verts, getPolygon m i = some verts ∧
      ∀ v ∈ verts, |dot3 v.2 p.normal - p.distance| ≤ tolD := by
  intro i hi
  obtain ⟨pv, hat, hpred⟩ := h i hi
  unfold getTriVertsAt at hat
  rcases hget : m.polys.get? i with - | ids <;> rw [hget] at hat
  · exact absurd hat (by simp)
  simp only [Option.some_bind] at hat
  refine ⟨[pv.1, pv.2.1, pv.2.2], ?_, ?_⟩
  · unfold getPolygon
    rw [hget]
    dsimp only
    rw [hat]
    rfl
  · unfold isPolygonAtDistanceFromPlane at hpred
    rw [Bool.and_eq_true, Bool.and_eq_true] at hpred
    obtain ⟨⟨hp1, hp2⟩, hp3⟩ := hpred
    unfold isPointAtDistanceFromPlane at hp1 hp2 hp3
    rw [decide_eq_true_eq] at hp1 hp2 hp3
    intro v hv
    rcases List.mem_cons.mp hv with hv | hv
    · rw [hv, abs_sub_comm]
      exact hp1
    rcases List.mem_cons.mp hv with hv | hv
    · rw [hv, abs_sub_comm]
      exact hp2
    rcases List.mem_cons.mp hv with hv | hv
    · rw [hv, abs_sub_comm]
      exact hp3
    · exact absurd hv (List.not_mem_nil v)

/-- C5 (confirmed).  After Mesher::clusterPlanesFromMesh, every polygon index
recorded in any output plane's triangle cluster points at a retrievable mesh
polygon all three of whose vertex positions v satisfy
|v . normal - distance| <= the polygon-plane distance tolerance used for
clustering, for that plane's normal and distance. -/
theorem clusterPlanesFromMesh_triangle_ids_within_tolerance
    (stereoFlag : Bool) (vio : LmkMap K)
    (calcN : Point3 K → Point3 K → Point3 K → Option (Point3 K))
    (longO : Point3 K → K) (piv : K) (cosO sinO : K → K)
    (zPeaksO : List K → List (PeakInfo K))
    (wallPeaksO : List (K × K) → List (PeakInfo2D K))
    (onlyNC doDouble : Bool) (tolN tolD tolNP tolDP tolH tolW minSep : K)
    (maxPeaks : ℕ) (geq : K → K → Plane K → Plane K → Bool)
    (planes : List (Plane K)) (m : Mesh3D K) (plane_id : ℕ) :
    ∀ p ∈ (clusterPlanesFromMesh stereoFlag vio calcN longO piv cosO sinO
      zPeaksO wallPeaksO onlyNC doDouble tolN tolD tolNP tolDP tolH tolW
      minSep maxPeaks geq planes m plane_id).1,
      ∀ i ∈ p.triangle_ids, ∃ verts, getPolygon m i = some verts ∧
        ∀ v ∈ verts, |dot3 v.2 p.normal - p.distance| ≤ tolD := by
  intro p hp
  unfold clusterPlanesFromMesh at hp
  dsimp only at hp
  rcases List.mem_append.mp hp with h | h
  · exact planeClustered_conclusion tolD m p
      (segmentPlanesInMesh_clustered stereoFlag vio calcN longO piv onlyNC
        tolN tolD tolH tolW planes m p h)
  · exact planeClustered_conclusion tolD m p (by
      revert h
      set seg := segmentPlanesInMesh stereoFlag vio calcN longO piv onlyNC
        tolN tolD tolH tolW planes m with hseg
      set np := segmentNewPlanes minSep maxPeaks cosO sinO (zPeaksO seg.2.1)
        (wallPeaksO seg.2.2) plane_id with hnp
      set assoc := associatePlanes (geq tolNP tolDP) doDouble np.1 seg.1
        with hassoc
      intro h
      have hassocmem : ∀ q ∈ assoc.1, PlaneClustered tolD m q := by
        intro q hq
        have hq' : q ∈ np.1 :=
          associatePlanes_mem (geq tolNP tolDP) doDouble np.1 seg.1 q hq
        have hids : q.triangle_ids = [] :=
          segmentNewPlanes_triangle_ids minSep maxPeaks cosO sinO
            (zPeaksO seg.2.1) (wallPeaksO seg.2.2) plane_id q hq'
        intro j hj
        rw [hids] at hj
        exact absurd hj (List.not_mem_nil j)
      by_cases hlen : 0 < assoc.1.length
      · rw [if_pos hlen] at h
        exact updatePlanesLmkIdsFromMesh_clustered stereoFlag vio calcN tolN
          tolD assoc.1 m hassocmem p h
      · rw [if_neg hlen] at h
        exact hassocmem p h)

/-- Concrete mesh for the clustering witness: one triangle at z = 0. -/
def cMesh : Mesh3D ℚ :=
  ⟨[(1, (0, 0, 0)), (2, (1, 0, 0)), (3, (0, 1, 0))], [(1, 2, 3)]⟩

/-- Concrete seed plane: the ground plane z = 0. -/
def cSeed : Plane ℚ := ⟨('P', 0), (0, 0, 1), 0, [], 2, []⟩

/-- The seed plane after clustering: it has absorbed the polygon's landmark
ids and its triangle id. -/
def cSeedOut : Plane ℚ := ⟨('P', 0), (0, 0, 1), 0, [1, 2, 3], 2, [0]⟩

/-- Concrete stand-in for `Mesher::calculateNormal`: the triangle of `cMesh`
is flat, its normal is vertical. -/
def cCalcN : Point3 ℚ → Point3 ℚ → Point3 ℚ → Option (Point3 ℚ) :=
  fun _ _ _ => some (0, 0, 1)

/-- C5 witness: the tolerance theorem evaluated on a concrete clustering run
in which the seed plane absorbs the mesh's only polygon. -/
theorem clusterPlanesFromMesh_within_tolerance_witness :
    (cSeedOut ∈ (clusterPlanesFromMesh false [] cCalcN (fun _ => 0) 0
      (fun _ => 0) (fun _ => 0) (fun _ => []) (fun _ => []) true false
      (1 / 2) (1 / 10) 0 0 0 0 0 0 (fun _ _ _ _ => false) [cSeed] cMesh
      0).1) ∧
    (0 ∈ cSeedOut.triangle_ids) ∧
    (∃ verts, getPolygon cMesh 0 = some verts ∧
      ∀ v ∈ verts, |dot3 v.2 cSeedOut.normal - cSeedOut.distance| ≤
        ((1 : ℚ) / 10)) :=
  ⟨by with_unfolding_all decide, by decide,
    clusterPlanesFromMesh_triangle_ids_within_tolerance false [] cCalcN
      (fun _ => 0) 0 (fun _ => 0) (fun _ => 0) (fun _ => []) (fun _ => [])
      true false (1 / 2) (1 / 10) 0 0 0 0 0 0 (fun _ _ _ _ => false) [cSeed]
      cMesh 0 cSeedOut (by with_unfolding_all decide) 0 (by decide)⟩

lemma round_bounds (a b : ℤ) (x : ℚ) (ha : (a : ℚ) ≤ x) (hb : x ≤ (b : ℚ)) :
    a ≤ round x ∧ round x ≤ b := by
  rw [round_eq]
  constructor
  · rw [Int.le_floor]
    linarith
  · rw [Int.floor_le_iff]
    linarith

lemma segX_bounds (r yA xA yB xB c : ℤ) (h : segX r yA xA yB xB = some c) :
    min xA xB ≤ c ∧ c ≤ max xA xB := by
  simp only [segX] at h
  split_ifs at h with h1 h2
  simp only [Option.some_inj] at h
  subst h
  set lam : ℚ := ((r : ℚ) - (yB : ℚ)) / ((yA : ℚ) - (yB : ℚ)) with hlam
  obtain ⟨hl0, hl1⟩ := h2
  have hmin : ((min xA xB : ℤ) : ℚ) ≤ lam * (xA : ℚ) + (1 - lam) * (xB : ℚ) := by
    have hA : ((min xA xB : ℤ) : ℚ) ≤ (xA : ℚ) := by
      push_cast
      exact min_le_left _ _
    have hB : ((min xA xB : ℤ) : ℚ) ≤ (xB : ℚ) := by
      push_cast
      exact min_le_right _ _
    nlinarith
  have hmax : lam * (xA : ℚ) + (1 - lam) * (xB : ℚ) ≤ ((max xA xB : ℤ) : ℚ) := by
    have hA : (xA : ℚ) ≤ ((max xA xB : ℤ) : ℚ) := by
      push_cast
      exact le_max_left _ _
    have hB : (xB : ℚ) ≤ ((max xA xB : ℤ) : ℚ) := by
      push_cast
      exact le_max_right _ _
    nlinarith
  exact round_bounds _ _ _ hmin hmax

lemma rowCandidates_bounds (t : TriPx) (r : ℤ) :
    ∀ c ∈ rowCandidates t r, topLeftX t ≤ c ∧ c ≤ botRightX t := by
  intro c hc
  unfold rowCandidates at hc
  rw [List.reduceOption_mem_iff] at hc
  unfold topLeftX botRightX
  rcases List.mem_cons.mp hc with h | h
  · obtain ⟨h1, h2⟩ := segX_bounds r t.y0 t.x0 t.y1 t.x1 c h.symm
    omega
  rcases List.mem_cons.mp h with h | h
  · obtain ⟨h1, h2⟩ := segX_bounds r t.y1 t.x1 t.y2 t.x2 c h.symm
    omega
  rcases List.mem_cons.mp h with h | h
  · obtain ⟨h1, h2⟩ := segX_bounds r t.y2 t.x2 t.y0 t.x0 c h.symm
    omega
  · exact absurd h (List.not_mem_nil _)

lemma foldl_min_ge (a : ℤ) :
    ∀ (l : List ℤ) (init : ℤ), a ≤ init → (∀ x ∈ l, a ≤ x) →
      a ≤ l.foldl min init := by
  intro l
  induction l with
  | nil => intro init h _; exact h
  | cons x rest ih =>
    intro init hinit hall
    rw [List.foldl_cons]
    refine ih (min init x) (le_min hinit (hall x (List.mem_cons_self x rest)))
      (fun y hy => hall y (List.mem_cons_of_mem x hy))

lemma foldl_max_le (b : ℤ) :
    ∀ (l : List ℤ) (init : ℤ), init ≤ b → (∀ x ∈ l, x ≤ b) →
      l.foldl max init ≤ b := by
  intro l
  induction l with
  | nil => intro init h _; exact h
  | cons x rest ih =>
    intro init hinit hall
    rw [List.foldl_cons]
    refine ih (max init x) (max_le hinit (hall x (List.mem_cons_self x rest)))
      (fun y hy => hall y (List.mem_cons_of_mem x hy))

/-- C9 (corrected, amended form).  In the row scan of
UtilsOpenCV::FindHighIntensityInTriangle, the fatal `inconsistent extrema`
error is raised exactly when the row's computed min_x is BELOW the
bounding-box left edge or its max_x is ABOVE the right edge (the converse of
the claimed direction) — and with integer vertex coordinates this never
happens: every row scan returns its extrema, which always lie inside the
bounding box. -/
theorem rowScan_never_fails (t : TriPx) (r : ℤ) :
    rowScan t r = some (rowMinX t r, rowMaxX t r) ∧
    topLeftX t ≤ rowMinX t r ∧ rowMaxX t r ≤ botRightX t := by
  have htb : topLeftX t ≤ botRightX t := by
    unfold topLeftX botRightX
    omega
  have hmin : topLeftX t ≤ rowMinX t r := by
    unfold rowMinX
    exact foldl_min_ge _ _ _ htb
      (fun c hc => (rowCandidates_bounds t r c hc).1)
  have hmax : rowMaxX t r ≤ botRightX t := by
    unfold rowMaxX
    exact foldl_max_le _ _ _ htb
      (fun c hc => (rowCandidates_bounds t r c hc).2)
  refine ⟨?_, hmin, hmax⟩
  unfold rowScan
  rw [if_neg]
  rintro (h | h)
  · exact absurd h (not_lt.mpr hmin)
  · exact absurd h (not_lt.mpr hmax)

/-- Triangle (0,0), (4,4), (-4,4) used to refute the claimed direction of
the extrema check. -/
def cTri : TriPx := ⟨0, 0, 4, 4, -4, 4⟩

/-- C9 counterexample.  The claim says the fatal error fires exactly when
min_x > topLeft or max_x < botRight.  On row 1 of this triangle the computed
extrema are strictly inside the bounding box (min_x = -1 > topLeft = -4 and
max_x = 1 < botRight = 4), i.e. the claim's condition holds, yet the code
raises no error and the scan proceeds. -/
theorem rowScan_extrema_counterexample :
    rowScan cTri 1 = some (-1, 1) ∧ topLeftX cTri < rowMinX cTri 1 ∧
      rowMaxX cTri 1 < botRightX cTri := by
  refine ⟨?_, ?_, ?_⟩ <;> with_unfolding_all decide

lemma dot3_self_nonneg (p : Point3 ℝ) : 0 ≤ dot3 p p := by
  obtain ⟨a, b, c⟩ := p
  unfold dot3
  dsimp only
  nlinarith [mul_self_nonneg a, mul_self_nonneg b, mul_self_nonneg c]

lemma dot3_self_pos {p : Point3 ℝ} (h : p ≠ ((0 : ℝ), 0, 0)) :
    0 < dot3 p p := by
  rcases lt_or_eq_of_le (dot3_self_nonneg p) with hp | hp
  · exact hp
  · exfalso
    apply h
    obtain ⟨a, b, c⟩ := p
    unfold dot3 at hp
    dsimp only at hp
    have ha : a = 0 := by
      nlinarith [mul_self_nonneg a, mul_self_nonneg b, mul_self_nonneg c]
    have hb : b = 0 := by
      nlinarith [mul_self_nonneg a, mul_self_nonneg b, mul_self_nonneg c]
    have hc : c = 0 := by
      nlinarith [mul_self_nonneg a, mul_self_nonneg b, mul_self_nonneg c]
    rw [ha, hb, hc]

lemma norm3R_pos {p : Point3 ℝ} (h : p ≠ ((0 : ℝ), 0, 0)) : 0 < norm3R p :=
  Real.sqrt_pos.mpr (dot3_self_pos h)

lemma sub3_ne_zero {a b : Point3 ℝ} (h : a ≠ b) :
    sub3 a b ≠ ((0 : ℝ), 0, 0) := by
  obtain ⟨a1, a2, a3⟩ := a
  obtain ⟨b1, b2, b3⟩ := b
  unfold sub3
  dsimp only
  intro hc
  apply h
  rw [Prod.ext_iff, Prod.ext_iff] at hc ⊢
  dsimp only at hc ⊢
  obtain ⟨h1, h2, h3⟩ := hc
  exact ⟨sub_eq_zero.mp h1, sub_eq_zero.mp h2, sub_eq_zero.mp h3⟩

lemma norm3R_smul3 (c : ℝ) (p : Point3 ℝ) :
    norm3R (smul3 c p) = |c| * norm3R p := by
  unfold norm3R
  rw [show dot3 (smul3 c p) (smul3 c p) = c ^ 2 * dot3 p p from by
    obtain ⟨a, b, d⟩ := p
    unfold dot3 smul3
    dsimp only
    ring]
  rw [Real.sqrt_mul (sq_nonneg c), Real.sqrt_sq_eq_abs]

lemma div3_eq_smul3 (p : Point3 ℝ) (c : ℝ) : div3 p c = smul3 c⁻¹ p := by
  obtain ⟨a, b, d⟩ := p
  unfold div3 smul3
  dsimp only
  rw [div_eq_inv_mul, div_eq_inv_mul, div_eq_inv_mul]

lemma norm3R_div3_self {p : Point3 ℝ} (h : 0 < norm3R p) :
    norm3R (div3 p (norm3R p)) = 1 := by
  rw [div3_eq_smul3, norm3R_smul3, abs_inv, abs_of_pos h,
    inv_mul_cancel₀ (ne_of_gt h)]

lemma dot3_self_of_norm_one {p : Point3 ℝ} (h : norm3R p = 1) :
    dot3 p p = 1 :=
  Real.sqrt_eq_one.mp h

lemma lagrange3 (u w : Point3 ℝ) :
    dot3 (cross3 u w) (cross3 u w) = dot3 u u * dot3 w w - dot3 u w ^ 2 := by
  obtain ⟨a, b, c⟩ := u
  obtain ⟨d, e, f⟩ := w
  unfold dot3 cross3
  dsimp only
  ring

lemma cross3_smul3 (a b : ℝ) (u w : Point3 ℝ) :
    cross3 (smul3 a u) (smul3 b w) = smul3 (a * b) (cross3 u w) := by
  obtain ⟨u1, u2, u3⟩ := u
  obtain ⟨w1, w2, w3⟩ := w
  unfold cross3 smul3
  dsimp only
  rw [Prod.ext_iff, Prod.ext_iff]
  dsimp only
  refine ⟨by ring, by ring, by ring⟩

lemma div3_smul3_cancel {k : ℝ} (hk : k ≠ 0) (p : Point3 ℝ) (c : ℝ) :
    div3 (smul3 k p) (k * c) = div3 p c := by
  obtain ⟨a, b, d⟩ := p
  unfold div3 smul3
  dsimp only
  rw [mul_div_mul_left _ _ hk, mul_div_mul_left _ _ hk,
    mul_div_mul_left _ _ hk]

/-- The normalized cross product of the two normalized edge vectors equals the
normalized cross product of the raw edge vectors, and it is a unit vector,
provided both edges have positive length and the normalized edges are not
aligned within the degeneracy tolerance. -/
lemma normalizedCross_spec {v21 v31 : Point3 ℝ}
    (ha : 0 < norm3R v21) (hb : 0 < norm3R v31)
    (hd : |dot3 (div3 v21 (norm3R v21)) (div3 v31 (norm3R v31))| <
      1 - 1 / 1000) :
    div3 (cross3 (div3 v21 (norm3R v21)) (div3 v31 (norm3R v31)))
        (norm3R (cross3 (div3 v21 (norm3R v21)) (div3 v31 (norm3R v31)))) =
      div3 (cross3 v21 v31) (norm3R (cross3 v21 v31)) ∧
    norm3R (div3 (cross3 (div3 v21 (norm3R v21)) (div3 v31 (norm3R v31)))
        (norm3R (cross3 (div3 v21 (norm3R v21)) (div3 v31 (norm3R v31))))) =
      1 := by
  set u := div3 v21 (norm3R v21) with hu
  set w := div3 v31 (norm3R v31) with hw
  have hu1 : norm3R u = 1 := norm3R_div3_self ha
  have hw1 : norm3R w = 1 := norm3R_div3_self hb
  have huu : dot3 u u = 1 := dot3_self_of_norm_one hu1
  have hww : dot3 w w = 1 := dot3_self_of_norm_one hw1
  have habs : |dot3 u w| < 1 := lt_of_lt_of_le hd (by norm_num)
  have hsq : dot3 u w ^ 2 < 1 := by
    obtain ⟨hl, hr⟩ := abs_lt.mp habs
    nlinarith
  have hcpos : 0 < dot3 (cross3 u w) (cross3 u w) := by
    rw [lagrange3, huu, hww]
    nlinarith
  have hcn : 0 < norm3R (cross3 u w) := Real.sqrt_pos.mpr hcpos
  constructor
  · have hk : (0 : ℝ) < (norm3R v21)⁻¹ * (norm3R v31)⁻¹ :=
      mul_pos (inv_pos.mpr ha) (inv_pos.mpr hb)
    have hcr : cross3 u w =
        smul3 ((norm3R v21)⁻¹ * (norm3R v31)⁻¹) (cross3 v21 v31) := by
      rw [hu, hw, div3_eq_smul3, div3_eq_smul3, cross3_smul3]
    rw [hcr, norm3R_smul3, abs_of_pos hk, div3_smul3_cancel (ne_of_gt hk)]
  · exact norm3R_div3_self hcn

/-- C7 (confirmed).  Mesher::calculateNormal on a triangle with p2 distinct
from p1 and p3 distinct from p1: it produces no normal exactly when the
absolute dot product of the normalized edge vectors v21 = p2 - p1 and
v31 = p3 - p1 is at least 1 - 1e-3, and otherwise it returns the normalized
cross product of v21 and v31 (normalizing the edges first does not change the
direction), which is a unit vector. -/
theorem calculateNormal_characterization (p1 p2 p3 : Point3 ℝ)
    (h2 : p2 ≠ p1) (h3 : p3 ≠ p1) :
    calculateNormalR p1 p2 p3 =
      (if |dot3 (div3 (sub3 p2 p1) (norm3R (sub3 p2 p1)))
            (div3 (sub3 p3 p1) (norm3R (sub3 p3 p1)))| ≥ 1 - 1 / 1000
       then none
       else some (div3 (cross3 (sub3 p2 p1) (sub3 p3 p1))
         (norm3R (cross3 (sub3 p2 p1) (sub3 p3 p1))))) ∧
    ∀ nv ∈ calculateNormalR p1 p2 p3, norm3R nv = 1 := by
  have ha : 0 < norm3R (sub3 p2 p1) := norm3R_pos (sub3_ne_zero h2)
  have hb : 0 < norm3R (sub3 p3 p1) := norm3R_pos (sub3_ne_zero h3)
  have hcond : calculateNormalR p1 p2 p3 =
      if |dot3 (div3 (sub3 p2 p1) (norm3R (sub3 p2 p1)))
            (div3 (sub3 p3 p1) (norm3R (sub3 p3 p1)))| ≥ 1 - 1 / 1000
      then none
      else some (div3
        (cross3 (div3 (sub3 p2 p1) (norm3R (sub3 p2 p1)))
          (div3 (sub3 p3 p1) (norm3R (sub3 p3 p1))))
        (norm3R (cross3 (div3 (sub3 p2 p1) (norm3R (sub3 p2 p1)))
          (div3 (sub3 p3 p1) (norm3R (sub3 p3 p1)))))) := rfl
  by_cases hd : |dot3 (div3 (sub3 p2 p1) (norm3R (sub3 p2 p1)))
      (div3 (sub3 p3 p1) (norm3R (sub3 p3 p1)))| ≥ 1 - 1 / 1000
  · rw [hcond, if_pos hd, if_pos hd]
    exact ⟨rfl, by simp⟩
  · obtain ⟨hmain, hunit⟩ := normalizedCross_spec ha hb (not_le.mp hd)
    rw [hcond, if_neg hd, if_neg hd]
    refine ⟨congrArg some hmain, ?_⟩
    intro nv hnv
    rw [Option.mem_def, Option.some_inj] at hnv
    rw [← hnv]
    exact hunit

/-- Closed instance of the C7 characterization on the right triangle with
vertices the origin, (1,0,0) and (0,1,0); both edge hypotheses hold since the
nonzero coordinates differ. -/
theorem calculateNormal_characterization_witness :
    ((((1 : ℝ), 0, 0) : Point3 ℝ) ≠ ((0 : ℝ), 0, 0)) ∧
    ((((0 : ℝ), 1, 0) : Point3 ℝ) ≠ ((0 : ℝ), 0, 0)) ∧
    (calculateNormalR ((0 : ℝ), 0, 0) ((1 : ℝ), 0, 0) ((0 : ℝ), 1, 0) =
      (if |dot3 (div3 (sub3 ((1 : ℝ), 0, 0) ((0 : ℝ), 0, 0))
            (norm3R (sub3 ((1 : ℝ), 0, 0) ((0 : ℝ), 0, 0))))
            (div3 (sub3 ((0 : ℝ), 1, 0) ((0 : ℝ), 0, 0))
            (norm3R (sub3 ((0 : ℝ), 1, 0) ((0 : ℝ), 0, 0))))| ≥ 1 - 1 / 1000
       then none
       else some (div3
         (cross3 (sub3 ((1 : ℝ), 0, 0) ((0 : ℝ), 0, 0))
           (sub3 ((0 : ℝ), 1, 0) ((0 : ℝ), 0, 0)))
         (norm3R (cross3 (sub3 ((1 : ℝ), 0, 0) ((0 : ℝ), 0, 0))
           (sub3 ((0 : ℝ), 1, 0) ((0 : ℝ), 0, 0)))))) ∧
     ∀ nv ∈ calculateNormalR ((0 : ℝ), 0, 0) ((1 : ℝ), 0, 0) ((0 : ℝ), 1, 0),
       norm3R nv = 1) :=
  ⟨by simp [Prod.ext_iff], by simp [Prod.ext_iff],
    calculateNormal_characterization ((0 : ℝ), 0, 0) ((1 : ℝ), 0, 0)
      ((0 : ℝ), 1, 0) (by simp [Prod.ext_iff]) (by simp [Prod.ext_iff])⟩

/-- C8 (corrected, amended form).  In the wall-sample normalization of
Mesher::segmentPlanesInMesh, theta is the longitude of the triangle normal,
which as an atan2 value lies in (-pi, pi]; a negative theta is replaced by
(theta + pi, -distance); the pushed theta therefore lies in the CLOSED
interval [0, pi] -- the claimed half-open range [0, pi) is wrong because
theta = pi is nonnegative and is pushed unchanged. -/
theorem wallSample_theta_range (n p1 : Point3 ℝ) :
    getLongitudeR n vertical3 ∈ Set.Ioc (-Real.pi) Real.pi ∧
    wallSampleR n p1 =
      (if getLongitudeR n vertical3 < 0
       then (getLongitudeR n vertical3 + Real.pi, -dot3 p1 n)
       else (getLongitudeR n vertical3, dot3 p1 n)) ∧
    (wallSampleR n p1).1 ∈ Set.Icc 0 Real.pi := by
  have hrange : getLongitudeR n vertical3 ∈ Set.Ioc (-Real.pi) Real.pi :=
    Complex.arg_mem_Ioc _
  have heq : wallSampleR n p1 =
      (if getLongitudeR n vertical3 < 0
       then (getLongitudeR n vertical3 + Real.pi, -dot3 p1 n)
       else (getLongitudeR n vertical3, dot3 p1 n)) := by
    simp only [wallSampleR, wallSampleK]
  refine ⟨hrange, heq, ?_⟩
  rw [heq]
  obtain ⟨hlo, hhi⟩ := hrange
  by_cases hneg : getLongitudeR n vertical3 < 0
  · rw [if_pos hneg]
    refine ⟨?_, ?_⟩
    · show 0 ≤ getLongitudeR n vertical3 + Real.pi
      linarith
    · show getLongitudeR n vertical3 + Real.pi ≤ Real.pi
      linarith
  · rw [if_neg hneg]
    exact ⟨le_of_not_lt hneg, hhi⟩

/-- C8 counterexample.  For the wall normal (-1, 0, 0) the longitude is the
atan2 of (0, -1), which is exactly pi; pi is not negative, so the sample keeps
theta = pi, which lies outside the claimed half-open range [0, pi). -/
theorem wallSample_theta_pi_counterexample :
    (wallSampleR ((-1 : ℝ), 0, 0) ((0 : ℝ), 0, 0)).1 = Real.pi ∧
      ¬(wallSampleR ((-1 : ℝ), 0, 0) ((0 : ℝ), 0, 0)).1 < Real.pi := by
  have hproj : sub3 ((-1 : ℝ), 0, 0)
      (smul3 (dot3 vertical3 ((-1 : ℝ), 0, 0)) vertical3) =
      ((-1 : ℝ), 0, 0) := by
    unfold sub3 smul3 dot3 vertical3
    norm_num
  have harg : getLongitudeR ((-1 : ℝ), 0, 0) vertical3 = Real.pi := by
    simp only [getLongitudeR]
    rw [hproj]
    show Complex.arg ⟨(-1 : ℝ), (0 : ℝ)⟩ = Real.pi
    rw [show (⟨(-1 : ℝ), (0 : ℝ)⟩ : ℂ) = -1 from by
      apply Complex.ext <;> simp]
    exact Complex.arg_neg_one
  have h1 : (wallSampleR ((-1 : ℝ), 0, 0) ((0 : ℝ), 0, 0)).1 = Real.pi := by
    simp only [wallSampleR, wallSampleK]
    rw [harg, if_neg (not_lt.mpr Real.pi_nonneg)]
  exact ⟨h1, by rw [h1]; exact lt_irrefl _⟩

end VIO
